import Mathlib

/-!
# dnc: a shallow embedding of `dnc.c`

`dnc.c` is a small nc-like tool: it either listens for one TCP connection or
makes one, and then relays standard input to the socket with a `poll` loop.

The embedding has two parts.

* `dnc_port_parse` is embedded together with a model of the C library function
  `strtol` it calls (base 10, as fixed by ISO C 7.22.1.4).
* `dnc_connection`, `dnc_listen`, `dnc_connect` and `main` are embedded as
  functions of a scripted environment: the outcomes of the system calls
  (`poll`, `read`, `write`, `socket`, ...) are inputs, consumed in program
  order, and every call, log line and diagnostic is appended to a trace.  A
  call whose script is exhausted never returns (`Outcome.blocked`).
-/

namespace Dnc

deriving instance DecidableEq for Except

/-! ## Port parsing -/

/-- Width in bits of the C type `long` (LP64). -/
def LONG_BIT : Nat := 64

/-- Largest value of the C type `long`. -/
def LONG_MAX : Int := 2 ^ (LONG_BIT - 1) - 1

/-- Smallest value of the C type `long`. -/
def LONG_MIN : Int := -(2 ^ (LONG_BIT - 1))

/-- Largest value of `uint16_t`. -/
def UINT16_MAX : Nat := 65535

/-- The C-locale `isspace`: space, `\t`, `\n`, `\v`, `\f`, `\r`. -/
def isspace (c : Char) : Bool :=
  c.toNat = 32 || (9 ≤ c.toNat && c.toNat ≤ 13)

/-- The C `isdigit`. -/
def isdigit (c : Char) : Bool :=
  48 ≤ c.toNat && c.toNat ≤ 57

/-- Value of a decimal digit character. -/
def digitVal (c : Char) : Nat := c.toNat - 48

/-- The digit-accumulation loop of `strtol`: consumes the longest run of
decimal digits, returning the accumulated (unbounded) value, the number of
digits consumed and the unconsumed rest. -/
def scanDigits : Nat → Nat → List Char → Nat × Nat × List Char
  | acc, cnt, [] => (acc, cnt, [])
  | acc, cnt, c :: cs =>
    if isdigit c then scanDigits (acc * 10 + digitVal c) (cnt + 1) cs
    else (acc, cnt, c :: cs)

/-- Skips the leading white space of the subject string, as `strtol` does. -/
def skipSpace : List Char → List Char
  | [] => []
  | c :: cs => if isspace c then skipSpace cs else c :: cs

/-- Reads the optional sign of the subject string: whether it is negative,
and what follows the sign. -/
def readSign : List Char → Bool × List Char
  | [] => (false, [])
  | c :: cs =>
    if c = '-' then (true, cs) else if c = '+' then (false, cs) else (false, c :: cs)

/-- The `long` that `strtol` returns for a magnitude: the value when it is
representable, otherwise `LONG_MIN` or `LONG_MAX` according to the sign. -/
def clampLong (neg : Bool) (acc : Nat) : Int :=
  if neg then
    (if (2 : Int) ^ (LONG_BIT - 1) < (acc : Int) then LONG_MIN else -(acc : Int))
  else
    (if LONG_MAX < (acc : Int) then LONG_MAX else (acc : Int))

/-- Model of the C library function `strtol(nptr, &endptr, 10)`.  The result is
the converted `long` and the string `endptr` points at.  White space is
skipped, an optional sign is read, then the longest run of digits; with no
digit at all no conversion is performed, the value is 0 and `endptr` is
`nptr`; a value out of range of `long` is clamped to `LONG_MAX`/`LONG_MIN`. -/
def strtol (nptr : List Char) : Int × List Char :=
  let sg := readSign (skipSpace nptr)
  let r := scanDigits 0 0 sg.2
  if r.2.1 = 0 then (0, nptr) else (clampLong sg.1 r.1, r.2.2)

/-- The character `*endptr`: the first character of the rest, or NUL at the
end of the string. -/
def deref (s : List Char) : Char := s.headD (Char.ofNat 0)

/-- Conversion of a `long` to `unsigned long`. -/
def toUnsignedLong (v : Int) : Nat := (v % 2 ^ LONG_BIT).toNat

/-- Embedding of `dnc_port_parse`: `Except.error (-1)` is the return value -1
(nothing stored), `Except.ok p` is the return value 0 with `p` stored in
`*portp`. -/
def dnc_port_parse (portstr : List Char) : Except Int Nat :=
  let r := strtol portstr
  let port := toUnsignedLong r.1
  if (deref r.2).toNat ≠ 0 ∨ port > UINT16_MAX then
    .error (-1)
  else
    .ok (port % 2 ^ 16)

/-- The number a string of decimal digits denotes, most significant digit
first (positional notation). -/
def decimalValue (s : List Char) : Nat :=
  Nat.ofDigits 10 (s.reverse.map digitVal)



/-! ## The relay loop: data model -/

/-- A byte of I/O data (a C `char`). -/
abbrev Byte := Nat

/-- `POLLIN` of `<poll.h>`. -/
def POLLIN : Nat := 0x0001

/-- `POLLHUP` of `<poll.h>`. -/
def POLLHUP : Nat := 0x0010

/-- `STDIN_FILENO` of `<unistd.h>`. -/
def STDIN_FILENO : Int := 0

/-- `STDOUT_FILENO` of `<unistd.h>`. -/
def STDOUT_FILENO : Int := 1

/-- `sizeof (buf)` for `char buf[128]` in `dnc_connection`. -/
def BUFSZ : Nat := 128

/-- The lines `dnc_log` writes to the log (the time stamp is left out). -/
inductive LogMsg
  | listening
  | establishing
  | connected
  | enteringPoll
  | pollReturned (revents0 revents1 : Nat)
  | readingStdin
  | writingToSocket (nread : Nat)
  | readingSocket
  | eosSocket
  | readFromSocket (nread : Nat)
  | eosBoth
  | pausing
  deriving DecidableEq, Repr

/-- Text of a log line, as formatted by `dnc_log`. -/
def LogMsg.text : LogMsg → String
  | .listening => "listening"
  | .establishing => "establishing connection"
  | .connected => "connected"
  | .enteringPoll => "entering poll()"
  | .pollReturned r0 r1 =>
    "poll returned events 0x" ++ String.mk (Nat.toDigits 16 r0) ++ "/0x"
      ++ String.mk (Nat.toDigits 16 r1)
  | .readingStdin => "reading from stdin"
  | .writingToSocket n => "writing " ++ toString n ++ " bytes read from stdin to socket"
  | .readingSocket => "reading from socket"
  | .eosSocket => "read end-of-stream from socket"
  | .readFromSocket n => "read " ++ toString n ++ " bytes from socket"
  | .eosBoth => "read end-of-stream from both socket and stdin"
  | .pausing => "pausing until signal"

/-- The diagnostics `warn` and `warnx` print on the error stream. -/
inductive Diag
  | poll
  | read
  | write
  | shortWrite (expected : Nat) (wrote : Int)
  | socket
  | bind
  | listen
  | connect
  | invalidPort (arg : List Char)
  | optionRequiresArgument (optopt : Char)
  | unrecognizedOption (optopt : Char)
  | listenRequiresPort
  | extraArguments
  | missingArguments
  | invalidAddress (arg : List Char)
  | hostnamesNotSupported
  deriving DecidableEq, Repr

/-- Outcome of one `poll(pollfds, 2, -1)`: its return value and the `revents`
it stored for the two descriptors. -/
structure PollRes where
  ret : Int
  revents0 : Nat
  revents1 : Nat
  deriving DecidableEq, Repr

/-- Outcome of one `read(fd, buf, sizeof (buf))`: a negative return value, or
the bytes the descriptor has for this call, of which the call delivers at most
`sizeof (buf)` (a zero-length list is end-of-stream). -/
inductive ReadRes
  | fail
  | data (bs : List Byte)
  deriving DecidableEq, Repr

/-- The observable actions of the program, in program order.  A system call is
recorded with its outcome; the outcome `none` is a call that never returns.
`read` and `write` record the index of the `pollfds` entry whose descriptor
they use, and the descriptor. -/
inductive Event
  | log (m : LogMsg)
  | warn (d : Diag)
  | usage
  | poll (r : Option PollRes)
  | read (i : Nat) (fd : Int) (r : Option ReadRes)
  | write (i : Nat) (fd : Int) (bs : List Byte) (r : Option Int)
  | pause
  | socket (ret : Int)
  | bind (fd : Int) (ret : Int)
  | listen (fd : Int) (ret : Int)
  | accept (fd : Int) (ret : Int)
  | connect (fd : Int) (ret : Int)
  | close (fd : Int)
  deriving DecidableEq, Repr

/-- How a function of the program ends: it returns a value, the process
exits through `exit`, it stays in `pause()`, it stays in a system call that
never returns, or an `assert` fails. -/
inductive Outcome
  | returned (rv : Int)
  | exited (status : Int)
  | paused
  | blocked
  | aborted
  deriving DecidableEq, Repr

/-- The scripted environment: the outcomes of the system calls, each list
consumed in program order by the calls of its kind. -/
structure Env where
  polls : List PollRes
  stdinReads : List ReadRes
  sockReads : List ReadRes
  writes : List Int
  pauseReturns : Bool
  stack : List Byte
  socketRet : Int
  bindRet : Int
  listenRet : Int
  acceptRet : Int
  connectRet : Int

/-- The state of `dnc_connection`: the `events` and `revents` fields of
`pollfds[0]` (standard input) and `pollfds[1]` (the socket), `buf`, what is
left of the scripted outcomes, and the trace so far. -/
structure St where
  events0 : Nat
  events1 : Nat
  revents0 : Nat
  revents1 : Nat
  buf : List Byte
  stdinReads : List ReadRes
  sockReads : List ReadRes
  writes : List Int
  trace : List Event
  deriving DecidableEq, Repr

/-- Appends an action to the trace. -/
def St.emit (st : St) (e : Event) : St :=
  { st with trace := st.trace ++ [e] }

/-- Control after a part of the loop body: it goes on, or the function ends. -/
inductive Step
  | cont (st : St)
  | stop (o : Outcome) (st : St)
  deriving DecidableEq, Repr

/-- The end of a run of `dnc_connection`: how it ended and the final state. -/
structure Run where
  out : Outcome
  st : St
  deriving DecidableEq, Repr

/-! ## The relay loop: `dnc_connection` -/

/-- The test `(revents & (POLLIN | POLLHUP)) != 0`. -/
def ready (revents : Nat) : Bool :=
  revents &&& (POLLIN ||| POLLHUP) != 0

/-- The `stdin` part of the loop body: when `pollfds[0].revents` has `POLLIN` or
`POLLHUP`, read from standard input into `buf`, clear `pollfds[0].events` on a
zero-length read, and write the `nread` bytes of `buf` to the socket. -/
def stdinPhase (sock : Int) (st : St) : Step :=
  if ready st.revents0 then
    let st1 := st.emit (.log .readingStdin)
    match st1.stdinReads with
    | [] => .stop .blocked (st1.emit (.read 0 STDIN_FILENO none))
    | .fail :: rs =>
      .stop (.returned (-1))
        (({ st1 with stdinReads := rs }.emit (.read 0 STDIN_FILENO (some .fail))).emit
          (.warn .read))
    | .data d :: rs =>
      let bs := d.take BUFSZ
      let nread := bs.length
      let st2 := { st1 with stdinReads := rs, buf := bs ++ st1.buf.drop nread,
                            events0 := if nread = 0 then 0 else st1.events0 }.emit
        (.read 0 STDIN_FILENO (some (.data bs)))
      let st3 := st2.emit (.log (.writingToSocket nread))
      match st3.writes with
      | [] => .stop .blocked (st3.emit (.write 1 sock (st3.buf.take nread) none))
      | w :: ws =>
        let st4 := { st3 with writes := ws }.emit
          (.write 1 sock (st3.buf.take nread) (some w))
        if w < 0 then .stop (.returned (-1)) (st4.emit (.warn .write))
        else if w ≠ (nread : Int) then
          .stop (.returned (-1)) (st4.emit (.warn (.shortWrite nread w)))
        else .cont st4
  else .cont st

/-- The socket part of the loop body: when `pollfds[1].revents` has `POLLIN` or
`POLLHUP`, read from the socket into `buf`, clear `pollfds[1].events` on a
zero-length read, and log the count. -/
def sockPhase (sock : Int) (st : St) : Step :=
  if ready st.revents1 then
    let st1 := st.emit (.log .readingSocket)
    match st1.sockReads with
    | [] => .stop .blocked (st1.emit (.read 1 sock none))
    | .fail :: rs =>
      .stop (.returned (-1))
        (({ st1 with sockReads := rs }.emit (.read 1 sock (some .fail))).emit (.warn .read))
    | .data d :: rs =>
      let bs := d.take BUFSZ
      let nread := bs.length
      let st2 := { st1 with sockReads := rs, buf := bs ++ st1.buf.drop nread }.emit
        (.read 1 sock (some (.data bs)))
      let st3 :=
        if nread = 0 then { st2.emit (.log .eosSocket) with events1 := 0 } else st2
      .cont (st3.emit (.log (.readFromSocket nread)))
  else .cont st

/-- The loop body after `poll` has returned `p`: a negative return value ends
the function with -1; otherwise the `revents` are logged and the two parts
run, standard input first. -/
def body (sock : Int) (p : PollRes) (st : St) : Step :=
  let st1 := st.emit (.poll (some p))
  if p.ret < 0 then .stop (.returned (-1)) (st1.emit (.warn .poll))
  else
    let st2 := { st1 with revents0 := p.revents0, revents1 := p.revents1 }
    let st3 := st2.emit (.log (.pollReturned st2.revents0 st2.revents1))
    match stdinPhase sock st3 with
    | .stop o st' => .stop o st'
    | .cont st' => sockPhase sock st'

/-- The head of the loop: the log line "entering poll()". -/
def enter (st : St) : St := st.emit (.log .enteringPoll)

/-- The loop's exit test `pollfds[0].events == 0 && pollfds[1].events == 0`. -/
def breaks (st : St) : Bool :=
  st.events0 = 0 && st.events1 = 0

/-- What follows the loop: the two log lines, `pause()`, and `return (0)` if
`pause()` ever returns. -/
def terminalWait (pauseReturns : Bool) (st : St) : Run :=
  let st1 := ((st.emit (.log .eosBoth)).emit (.log .pausing)).emit .pause
  if pauseReturns then ⟨.returned 0, st1⟩ else ⟨.paused, st1⟩

/-- The `for (;;)` loop of `dnc_connection`, from its head in state `st`, on the
scripted `poll` outcomes.  With no outcome left, `poll` never returns. -/
def dnc_loop (sock : Int) (pauseReturns : Bool) : List PollRes → St → Run
  | [], st =>
    if breaks (enter st) then terminalWait pauseReturns (enter st)
    else ⟨.blocked, (enter st).emit (.poll none)⟩
  | p :: ps, st =>
    if breaks (enter st) then terminalWait pauseReturns (enter st)
    else
      match body sock p (enter st) with
      | .cont st' => dnc_loop sock pauseReturns ps st'
      | .stop o st' => ⟨o, st'⟩

/-- The state in which `dnc_connection` enters its loop: both `events` are
`POLLIN`, both `revents` are 0, `buf` holds whatever the stack holds. -/
def initSt (env : Env) : St :=
  { events0 := POLLIN, events1 := POLLIN, revents0 := 0, revents1 := 0,
    buf := env.stack, stdinReads := env.stdinReads, sockReads := env.sockReads,
    writes := env.writes, trace := [] }

/-- Embedding of `dnc_connection(dncp, sock)`. -/
def dnc_connection (sock : Int) (env : Env) : Run :=
  dnc_loop sock env.pauseReturns env.polls (initSt env)

/-- The state at the head of the loop after `k` complete passes, if the loop
gets that far. -/
def headAfter (sock : Int) : Nat → List PollRes → St → Option St
  | 0, _, st => some st
  | _ + 1, [], _ => none
  | k + 1, p :: ps, st =>
    if breaks (enter st) then none
    else
      match body sock p (enter st) with
      | .cont st' => headAfter sock k ps st'
      | .stop _ _ => none

/-! ## Connection establishment and `main` -/

/-- `DNC_F_LISTEN` of `dncflags_t`. -/
def DNC_F_LISTEN : Nat := 0x1

/-- The fields of `dnc_t` that matter: the flags, and the address and port of
`dnc_addr` (the log stream is the trace). -/
structure dnc_t where
  dnc_flags : Nat
  sin_addr : Nat
  sin_port : Nat
  deriving DecidableEq, Repr

/-- How a function that runs the relay ends, with everything it did. -/
structure Result where
  out : Outcome
  trace : List Event
  deriving DecidableEq, Repr

/-- What `dnc_listen` and `dnc_connect` do with an established connection:
run `dnc_connection` on `fd`, and when it returns, close the descriptors in
`closing` and return its value. -/
def relayOn (fd : Int) (closing : List Int) (before : List Event) (env : Env) : Result :=
  let r := dnc_connection fd env
  match r.out with
  | .returned rv => ⟨.returned rv, before ++ r.st.trace ++ closing.map Event.close⟩
  | o => ⟨o, before ++ r.st.trace⟩

/-- Embedding of `dnc_listen`: `socket`, `bind`, `listen`, the log line
"listening", `accept`, then the relay on the accepted connection; `out:`
closes the listening socket and returns `rv`, which is -1 unless the relay
returned. -/
def dnc_listen (dncp : dnc_t) (env : Env) : Result :=
  if dncp.dnc_flags &&& DNC_F_LISTEN = 0 then ⟨.aborted, []⟩
  else
    let sock := env.socketRet
    if sock = -1 then
      ⟨.returned (-1), [.socket sock, .warn .socket, .close sock]⟩
    else if env.bindRet ≠ 0 then
      ⟨.returned (-1), [.socket sock, .bind sock env.bindRet, .warn .bind, .close sock]⟩
    else if env.listenRet ≠ 0 then
      ⟨.returned (-1), [.socket sock, .bind sock env.bindRet, .listen sock env.listenRet,
        .warn .listen, .close sock]⟩
    else
      let client := env.acceptRet
      if client < 0 then
        ⟨.returned (-1), [.socket sock, .bind sock env.bindRet, .listen sock env.listenRet,
          .log .listening, .accept sock client, .close sock]⟩
      else
        relayOn client [client, sock]
          [.socket sock, .bind sock env.bindRet, .listen sock env.listenRet,
            .log .listening, .accept sock client] env

/-- Embedding of `dnc_connect`: `socket`, the log line "establishing
connection", `connect`, the log line "connected", then the relay on the
socket; `out:` closes the socket and returns `rv`. -/
def dnc_connect (dncp : dnc_t) (env : Env) : Result :=
  if dncp.dnc_flags &&& DNC_F_LISTEN ≠ 0 then ⟨.aborted, []⟩
  else
    let sock := env.socketRet
    if sock = -1 then
      ⟨.returned (-1), [.socket sock, .warn .socket, .close sock]⟩
    else if env.connectRet ≠ 0 then
      ⟨.returned (-1), [.socket sock, .log .establishing, .connect sock env.connectRet,
        .warn .connect, .close sock]⟩
    else
      relayOn sock [sock]
        [.socket sock, .log .establishing, .connect sock env.connectRet, .log .connected] env

/-- What `getopt(argc, argv, ":lnp:")` returns, call after call, until -1:
an option letter (with `optarg` for `-p`), `':'` for a missing argument, or
`'?'` for an unrecognised option (with `optopt`). -/
inductive Opt
  | l
  | n
  | p (optarg : List Char)
  | missingArg (optopt : Char)
  | unrecognized (optopt : Char)
  deriving DecidableEq, Repr

/-- The locals of `main` that the option loop sets. -/
structure MainSt where
  dnc_flags : Nat
  resolve : Bool
  haveport : Bool
  sin_port : Nat
  deriving DecidableEq, Repr

/-- Embedding of `dnc_usage`, called after the diagnostics `t`: it prints the
usage message on the error stream and ends the process with `exit(2)`. -/
def dnc_usage (t : List Event) : Result :=
  ⟨.exited 2, t ++ [.usage]⟩

/-- Embedding of `dnc_ipv4_parse`: 0 with the address stored when the
library's `inet_pton(AF_INET, ...)` returns 1, and -1 otherwise.  `inet_pton`
gives the converted address, or `none` when it does not return 1. -/
def dnc_ipv4_parse (inet_pton : List Char → Option Nat) (ip4str : List Char) :
    Except Int Nat :=
  match inet_pton ip4str with
  | some addr => .ok addr
  | none => .error (-1)

/-- The option loop of `main`.  `Except.error t` is a call of `dnc_usage()`
after the diagnostics `t`. -/
def optionLoop : List Opt → MainSt → Except (List Event) MainSt
  | [], s => .ok s
  | .l :: os, s => optionLoop os { s with dnc_flags := s.dnc_flags ||| DNC_F_LISTEN }
  | .n :: os, s => optionLoop os { s with resolve := false }
  | .p optarg :: os, s =>
    match dnc_port_parse optarg with
    | .error _ => .error [.warn (.invalidPort optarg)]
    | .ok port => optionLoop os { s with haveport := true, sin_port := port }
  | .missingArg c :: _, _ => .error [.warn (.optionRequiresArgument c)]
  | .unrecognized c :: _, _ => .error [.warn (.unrecognizedOption c)]

/-- Embedding of `main`.  `opts` is what `getopt` returns, `operands` is
`argv[optind .. argc)`, and `inet_pton` is the library's conversion of a
dotted-decimal IPv4 literal.  The byte order conversion `htons` is not
modelled. -/
def main (inet_pton : List Char → Option Nat) (opts : List Opt)
    (operands : List (List Char)) (env : Env) : Result :=
  match optionLoop opts ⟨0, true, false, 0⟩ with
  | .error t => dnc_usage t
  | .ok s =>
    if s.dnc_flags &&& DNC_F_LISTEN ≠ 0 then
      if s.haveport = false then dnc_usage [.warn .listenRequiresPort]
      else if operands ≠ [] then dnc_usage [.warn .extraArguments]
      else dnc_listen ⟨s.dnc_flags, 0, s.sin_port⟩ env
    else
      match operands with
      | [] => dnc_usage [.warn .missingArguments]
      | [_] => dnc_usage [.warn .missingArguments]
      | _ :: _ :: _ :: _ => dnc_usage [.warn .extraArguments]
      | [host, portstr] =>
        match dnc_ipv4_parse inet_pton host with
        | .error _ =>
          dnc_usage (.warn (.invalidAddress host)
            :: (if s.resolve then [.warn .hostnamesNotSupported] else []))
        | .ok addr =>
          match dnc_port_parse portstr with
          | .error _ => dnc_usage [.warn (.invalidPort portstr)]
          | .ok port => dnc_connect ⟨s.dnc_flags, addr, port⟩ env

/-- The exit status of the process, as its parent sees it: the low eight bits
of the value returned from `main` or passed to `exit`. -/
def exitStatus : Outcome → Option Int
  | .returned rv => some (rv % 256)
  | .exited status => some (status % 256)
  | _ => none


/-! ## The parts of the loop body, case by case -/

/-- The state after `poll` returned `p` with success and the result was logged. -/
def St.polled (st : St) (p : PollRes) : St :=
  { st with revents0 := p.revents0, revents1 := p.revents1,
            trace := st.trace ++ [.poll (some p), .log (.pollReturned p.revents0 p.revents1)] }

/-- The state after a successful read of `bs` from standard input, up to the
log line that announces the write. -/
def St.afterStdinRead (st : St) (bs : List Byte) (rs : List ReadRes) : St :=
  { st with stdinReads := rs, buf := bs ++ st.buf.drop bs.length,
            events0 := if bs.length = 0 then 0 else st.events0,
            trace := st.trace ++ [.log .readingStdin, .read 0 STDIN_FILENO (some (.data bs)),
              .log (.writingToSocket bs.length)] }

/-- The log lines that follow a successful socket read of `n` bytes. -/
def sockLogs (n : Nat) : List Event :=
  if n = 0 then [.log .eosSocket, .log (.readFromSocket n)] else [.log (.readFromSocket n)]

/-- The state after a successful read of `bs` from the socket. -/
def St.afterSockRead (st : St) (sock : Int) (bs : List Byte) (rs : List ReadRes) : St :=
  { st with sockReads := rs, buf := bs ++ st.buf.drop bs.length,
            events1 := if bs.length = 0 then 0 else st.events1,
            trace := st.trace ++ ([.log .readingSocket, .read 1 sock (some (.data bs))]
              ++ sockLogs bs.length) }

/-- The cases of `stdinPhase`. -/
inductive StdinSpec (sock : Int) (st : St) : Step → Prop
  | idle (h : ready st.revents0 = false) : StdinSpec sock st (.cont st)
  | readBlocked (h : ready st.revents0 = true) (hr : st.stdinReads = []) :
    StdinSpec sock st (.stop .blocked
      { st with trace := st.trace ++ [.log .readingStdin, .read 0 STDIN_FILENO none] })
  | readFailed (h : ready st.revents0 = true) (rs : List ReadRes)
    (hr : st.stdinReads = .fail :: rs) :
    StdinSpec sock st (.stop (.returned (-1))
      { st with stdinReads := rs,
                trace := st.trace ++ [.log .readingStdin, .read 0 STDIN_FILENO (some .fail),
                  .warn .read] })
  | writeBlocked (h : ready st.revents0 = true) (d bs : List Byte) (rs : List ReadRes)
    (hbs : bs = d.take BUFSZ) (hr : st.stdinReads = .data d :: rs) (hw : st.writes = []) :
    StdinSpec sock st (.stop .blocked
      { st.afterStdinRead bs rs with
        trace := (st.afterStdinRead bs rs).trace
          ++ [.write 1 sock bs none] })
  | writeFailed (h : ready st.revents0 = true) (d bs : List Byte) (rs : List ReadRes)
    (w : Int) (ws : List Int) (hbs : bs = d.take BUFSZ) (hr : st.stdinReads = .data d :: rs)
    (hw : st.writes = w :: ws)
    (hneg : w < 0) :
    StdinSpec sock st (.stop (.returned (-1))
      { st.afterStdinRead bs rs with
        writes := ws,
        trace := (st.afterStdinRead bs rs).trace
          ++ [.write 1 sock bs (some w), .warn .write] })
  | writeShort (h : ready st.revents0 = true) (d bs : List Byte) (rs : List ReadRes)
    (w : Int) (ws : List Int) (hbs : bs = d.take BUFSZ) (hr : st.stdinReads = .data d :: rs)
    (hw : st.writes = w :: ws)
    (hneg : ¬ w < 0) (hne : w ≠ (bs.length : Int)) :
    StdinSpec sock st (.stop (.returned (-1))
      { st.afterStdinRead bs rs with
        writes := ws,
        trace := (st.afterStdinRead bs rs).trace
          ++ [.write 1 sock bs (some w),
              .warn (.shortWrite bs.length w)] })
  | forwarded (h : ready st.revents0 = true) (d bs : List Byte) (rs : List ReadRes)
    (ws : List Int) (hbs : bs = d.take BUFSZ) (hr : st.stdinReads = .data d :: rs)
    (hw : st.writes = (bs.length : Int) :: ws) :
    StdinSpec sock st (.cont
      { st.afterStdinRead bs rs with
        writes := ws,
        trace := (st.afterStdinRead bs rs).trace
          ++ [.write 1 sock bs (some (bs.length : Int))] })

/-- The cases of `sockPhase`. -/
inductive SockSpec (sock : Int) (st : St) : Step → Prop
  | idle (h : ready st.revents1 = false) : SockSpec sock st (.cont st)
  | readBlocked (h : ready st.revents1 = true) (hr : st.sockReads = []) :
    SockSpec sock st (.stop .blocked
      { st with trace := st.trace ++ [.log .readingSocket, .read 1 sock none] })
  | readFailed (h : ready st.revents1 = true) (rs : List ReadRes)
    (hr : st.sockReads = .fail :: rs) :
    SockSpec sock st (.stop (.returned (-1))
      { st with sockReads := rs,
                trace := st.trace ++ [.log .readingSocket, .read 1 sock (some .fail),
                  .warn .read] })
  | received (h : ready st.revents1 = true) (d bs : List Byte) (rs : List ReadRes)
    (hbs : bs = d.take BUFSZ) (hr : st.sockReads = .data d :: rs) :
    SockSpec sock st (.cont (st.afterSockRead sock bs rs))


/-- The state a part of the loop body ends in. -/
def Step.st : Step → St
  | .cont s => s
  | .stop _ s => s

/-! ## Observations on traces -/

/-- The bytes an action takes from standard input: those a successful read
through `pollfds[0]` delivers. -/
def Event.stdinData : Event → List Byte
  | .read i _ (some (.data bs)) => if i = 0 then bs else []
  | _ => []

/-- The chunks read from standard input, concatenated in order. -/
def stdinBytes : List Event → List Byte
  | [] => []
  | e :: t => e.stdinData ++ stdinBytes t

/-- The bytes an action hands to `write` on descriptor `sock`. -/
def Event.requested (sock : Int) : Event → List Byte
  | .write _ fd bs _ => if fd = sock then bs else []
  | _ => []

/-- The byte ranges handed to `write` on `sock`, concatenated in order. -/
def requestedBytes (sock : Int) : List Event → List Byte
  | [] => []
  | e :: t => e.requested sock ++ requestedBytes sock t

/-- The bytes an action transfers to descriptor `sock`: the first `w` bytes of
the range, for a `write` that returned `w`. -/
def Event.transferred (sock : Int) : Event → List Byte
  | .write _ fd bs (some w) => if fd = sock then bs.take w.toNat else []
  | _ => []

/-- The bytes written to `sock`, concatenated in order. -/
def socketBytes (sock : Int) : List Event → List Byte
  | [] => []
  | e :: t => e.transferred sock ++ socketBytes sock t

/-- Whether an action is not a `write`, or is a `write` that transferred all
the bytes requested. -/
def Event.fullWrite : Event → Bool
  | .write _ _ bs r => decide (r = some (bs.length : Int))
  | _ => true

/-- Every successful read on standard input is followed at once by the log
line announcing the write and by a `write` of the bytes read to `sock`. -/
def Forwarded (sock : Int) : List Event → Prop
  | [] => True
  | e :: t =>
    (∀ fd bs, e = .read 0 fd (some (.data bs)) →
      ∃ r t', t = .log (.writingToSocket bs.length) :: .write 1 sock bs r :: t')
    ∧ Forwarded sock t

/-- Whether an action is a zero-length read through `pollfds[i]`. -/
def Event.isZeroRead (i : Nat) : Event → Bool
  | .read j _ (some (.data bs)) => decide (j = i) && bs.isEmpty
  | _ => false

/-- Whether a zero-length read through `pollfds[i]` has been observed: the
direction is half-closed. -/
def zeroReadSeen (i : Nat) (t : List Event) : Bool :=
  t.any (Event.isZeroRead i)

/-- Whether an action is a failed call of the relay: a `poll` that returned a
negative value, a `read` that returned a negative value, or a `write` whose
return value is not the count requested (negative, or a short write). -/
def Event.failed : Event → Bool
  | .poll (some p) => decide (p.ret < 0)
  | .read _ _ (some .fail) => true
  | .write _ _ bs (some w) => decide (w ≠ (bs.length : Int))
  | _ => false

/-- The diagnostic the program prints for a failed call. -/
def Event.diag : Event → Diag
  | .poll _ => .poll
  | .read _ _ _ => .read
  | .write _ _ bs (some w) => if w < 0 then .write else .shortWrite bs.length w
  | .socket _ => .socket
  | .bind _ _ => .bind
  | .listen _ _ => .listen
  | .connect _ _ => .connect
  | _ => .write

/-- Every failed call is followed by its diagnostic and by nothing else. -/
def FailureEnds : List Event → Prop
  | [] => True
  | e :: t => (e.failed = true → t = [.warn e.diag]) ∧ FailureEnds t

/-- Whether no call in the trace has failed. -/
def noFailure (t : List Event) : Bool :=
  t.all (fun e => !e.failed)

/-- On a trace listed latest action first: every `write` goes through
`pollfds[1]` to `sock`, and the two actions before it are a successful read
on standard input of exactly the bytes written and the log line announcing
the write. -/
def WritesJustified (sock : Int) : List Event → Prop
  | [] => True
  | e :: older =>
    (∀ i fd bs r, e = .write i fd bs r →
      i = 1 ∧ fd = sock ∧
      ∃ older', older = .log (.writingToSocket bs.length)
        :: .read 0 STDIN_FILENO (some (.data bs)) :: older')
    ∧ WritesJustified sock older

/-- The trace is at a loop head: it starts with "entering poll()". -/
def AtHead (t : List Event) : Prop :=
  ∃ u, t = .log .enteringPoll :: u

/-- Every successful read on the socket is followed by the log lines for its
count and then by the next loop head (or, unless `strict`, by the end of the
trace). -/
def SockReadsLogged (strict : Bool) : List Event → Prop
  | [] => True
  | e :: t =>
    (∀ fd bs, e = .read 1 fd (some (.data bs)) →
      ∃ t', t = sockLogs bs.length ++ t' ∧ (AtHead t' ∨ (strict = false ∧ t' = [])))
    ∧ SockReadsLogged strict t

/-- Whether an action is a failed call of connection establishment: `socket`
returned -1, `bind`, `listen` or `connect` returned non-zero, or `accept`
returned a negative value. -/
def Event.setupFailed : Event → Bool
  | .socket ret => decide (ret = -1)
  | .bind _ ret => decide (ret ≠ 0)
  | .listen _ ret => decide (ret ≠ 0)
  | .connect _ ret => decide (ret ≠ 0)
  | .accept _ ret => decide (ret < 0)
  | _ => false

/-- Whether an action is an `accept` call. -/
def Event.isAccept : Event → Bool
  | .accept _ _ => true
  | _ => false

/-- Whether an action is one the relay loop performs: a log line, one of its
diagnostics, `poll`, `read`, `write` or `pause`. -/
def Event.isRelay : Event → Bool
  | .log _ => true
  | .warn .poll => true
  | .warn .read => true
  | .warn .write => true
  | .warn (.shortWrite _ _) => true
  | .poll _ => true
  | .read _ _ _ => true
  | .write _ _ _ _ => true
  | .pause => true
  | _ => false

/-- Whether a call of connection establishment or of the relay failed. -/
def Event.bad (e : Event) : Bool :=
  e.setupFailed || e.failed

/-- What the program owes on failure, for a run of `main` or of one of the
functions it ends with: exit status 2 exactly when the usage message was
printed; after a failed call the function returns -1; and every failed call
but `accept` has its diagnostic on the error stream. -/
def FailsProperly (r : Result) : Prop :=
  (exitStatus r.out = some 2 ↔ Event.usage ∈ r.trace) ∧
  (∀ e ∈ r.trace, e.bad = true → r.out = .returned (-1)) ∧
  (∀ e ∈ r.trace, e.bad = true → e.isAccept = false → Event.warn e.diag ∈ r.trace)

/-- The link between the `events` fields and the reads observed: the interest
of a direction is 0 exactly when a zero-length read on it has been observed. -/
def InterestInv (st : St) : Prop :=
  (st.events0 = 0 ↔ zeroReadSeen 0 st.trace = true) ∧
  (st.events1 = 0 ↔ zeroReadSeen 1 st.trace = true)

/-! ## Example environments -/

/-- An environment given by the relay's scripts alone (the connection is
established without a failure). -/
def testEnv (polls : List PollRes) (stdinReads sockReads : List ReadRes)
    (writes : List Int) : Env :=
  { polls := polls, stdinReads := stdinReads, sockReads := sockReads, writes := writes,
    pauseReturns := false, stack := [], socketRet := 3, bindRet := 0, listenRet := 0,
    acceptRet := 4, connectRet := 0 }

/-- Standard input yields "abc" and then a zero-length read; the socket yields
nothing and `poll` never reports it. -/
def abcEnv : Env :=
  testEnv [⟨1, POLLIN, 0⟩, ⟨1, POLLIN, 0⟩] [.data [97, 98, 99], .data []] [] [3, 0]

/-- Standard input yields "abc" and then a zero-length read; after that the
socket yields a zero-length read. -/
def abcEosEnv : Env :=
  testEnv [⟨1, POLLIN, 0⟩, ⟨1, POLLIN, 0⟩, ⟨1, 0, POLLIN⟩]
    [.data [97, 98, 99], .data []] [.data []] [3, 0]

/-- The state at the third loop head of the run on `abcEosEnv` with socket 4:
standard input has delivered "abc" and its end, the socket nothing yet. -/
def abcEosHead : St :=
  { events0 := 0, events1 := POLLIN, revents0 := POLLIN, revents1 := 0,
    buf := [97, 98, 99], stdinReads := [], sockReads := [.data []], writes := [],
    trace := [.log .enteringPoll, .poll (some ⟨1, POLLIN, 0⟩), .log (.pollReturned POLLIN 0),
      .log .readingStdin, .read 0 STDIN_FILENO (some (.data [97, 98, 99])),
      .log (.writingToSocket 3), .write 1 4 [97, 98, 99] (some 3),
      .log .enteringPoll, .poll (some ⟨1, POLLIN, 0⟩), .log (.pollReturned POLLIN 0),
      .log .readingStdin, .read 0 STDIN_FILENO (some (.data [])),
      .log (.writingToSocket 0), .write 1 4 [] (some 0)] }

/-- Both descriptors are reported readable; standard input yields "abc", the
socket yields "x", and the `write` of the three bytes returns 2. -/
def shortWriteEnv : Env :=
  testEnv [⟨2, POLLIN, POLLIN⟩, ⟨1, 0, POLLIN⟩] [.data [97, 98, 99]] [.data [120]] [2]

/-- Standard input has ended in the first pass; in the second pass the read
on the socket fails. -/
def sockReadFailEnv : Env :=
  testEnv [⟨1, POLLIN, 0⟩, ⟨1, 0, POLLIN⟩, ⟨1, 0, POLLIN⟩] [.data []] [.fail, .data [120]] [0]

/-- Both descriptors are reported readable; standard input yields "abc", the
socket yields "x", the write is complete. -/
def bothDataEnv : Env :=
  testEnv [⟨2, POLLIN, POLLIN⟩] [.data [97, 98, 99]] [.data [120]] [3]

/-- Both descriptors are reported readable, and the first read on each returns
0; the zero-length write returns 0. -/
def bothEosEnv : Env :=
  testEnv [⟨2, POLLIN, POLLIN⟩] [.data []] [.data []] [0]

/-- Standard input ends at once; the next `poll` reports `POLLHUP` for it,
as `poll` does for a hung-up descriptor whatever `events` asks for. -/
def hangupEnv : Env :=
  testEnv [⟨1, POLLIN, 0⟩, ⟨1, POLLHUP, 0⟩] [.data [], .data []] [] [0, 0]

/-- The read on standard input fails in the first pass. -/
def stdinReadFailEnv : Env :=
  testEnv [⟨2, POLLIN, POLLIN⟩, ⟨1, 0, POLLIN⟩] [.fail] [.data [120]] []

/-- The first pass reads on the socket only, and that read fails. -/
def sockReadFailFirstEnv : Env :=
  testEnv [⟨1, 0, POLLIN⟩, ⟨1, POLLIN, 0⟩] [.data [97]] [.fail] [1]

/-- The call of `socket` fails. -/
def socketFailEnv : Env :=
  { testEnv [] [] [] [] with socketRet := -1 }

/-- The call of `accept` fails. -/
def acceptFailEnv : Env :=
  { testEnv [] [] [] [] with acceptRet := -1 }

theorem decimalValue_nil : decimalValue [] = 0 := by
  simp [decimalValue]

theorem decimalValue_cons (c : Char) (cs : List Char) :
    decimalValue (c :: cs) = digitVal c * 10 ^ cs.length + decimalValue cs := by
  simp [decimalValue, Nat.ofDigits_append, Nat.ofDigits_singleton]
  ring

/-- On a run of digits followed by a rest that does not start with a digit, the
scan consumes exactly the run. -/
theorem scanDigits_run (ds rest : List Char) (hds : ∀ c ∈ ds, isdigit c = true)
    (hrest : ∀ c ∈ rest.head?, isdigit c = false) (acc cnt : Nat) :
    scanDigits acc cnt (ds ++ rest)
      = (acc * 10 ^ ds.length + decimalValue ds, cnt + ds.length, rest) := by
  induction ds generalizing acc cnt with
  | nil =>
    cases rest with
    | nil => simp [scanDigits, decimalValue_nil]
    | cons c cs =>
      have hc : isdigit c = false := hrest c (by simp)
      simp [scanDigits, hc, decimalValue_nil]
  | cons d ds ih =>
    have hd : isdigit d = true := hds d (by simp)
    have hds' : ∀ c ∈ ds, isdigit c = true := fun c hc => hds c (by simp [hc])
    show scanDigits acc cnt (d :: (ds ++ rest)) = _
    rw [scanDigits, if_pos hd, ih hds', decimalValue_cons, List.length_cons]
    refine Prod.ext ?_ (Prod.ext ?_ rfl)
    · simp only; ring
    · simp only; omega

theorem skipSpace_spaces (ws t : List Char) (hws : ∀ c ∈ ws, isspace c = true) :
    skipSpace (ws ++ t) = skipSpace t := by
  induction ws with
  | nil => rfl
  | cons w ws ih =>
    have hw : isspace w = true := hws w (by simp)
    show skipSpace (w :: (ws ++ t)) = _
    rw [skipSpace, if_pos hw]
    exact ih (fun c hc => hws c (by simp [hc]))

theorem skipSpace_nonspace (c : Char) (cs : List Char) (hc : isspace c = false) :
    skipSpace (c :: cs) = c :: cs := by
  simp [skipSpace, hc]

theorem isdigit_not_space (c : Char) (h : isdigit c = true) : isspace c = false := by
  simp only [isdigit, Bool.and_eq_true, decide_eq_true_eq] at h
  simp only [isspace, Bool.or_eq_false_iff, decide_eq_false_iff_not, Bool.and_eq_false_iff]
  omega

theorem isdigit_not_sign (c : Char) (h : isdigit c = true) : c ≠ '-' ∧ c ≠ '+' := by
  constructor <;> (intro hc; subst hc; revert h; decide)

theorem readSign_digit (d : Char) (t : List Char) (hd : isdigit d = true) :
    readSign (d :: t) = (false, d :: t) := by
  have h := isdigit_not_sign d hd
  simp [readSign, h.1, h.2]

/-- What `strtol` returns on optional white space, an optional sign and a
non-empty run of digits, followed by a rest that does not start with a digit. -/
theorem strtol_number (ws sg ds rest : List Char) (hws : ∀ c ∈ ws, isspace c = true)
    (hsg : sg = [] ∨ sg = ['+'] ∨ sg = ['-']) (hne : ds ≠ [])
    (hds : ∀ c ∈ ds, isdigit c = true) (hrest : ∀ c ∈ rest.head?, isdigit c = false) :
    strtol (ws ++ sg ++ ds ++ rest)
      = (clampLong (decide (sg = ['-'])) (decimalValue ds), rest) := by
  obtain ⟨d, ds', rfl⟩ := List.exists_cons_of_ne_nil hne
  have hd : isdigit d = true := hds d (by simp)
  have hlen : (d :: ds').length ≠ 0 := by simp
  have hscan := scanDigits_run (d :: ds') rest hds hrest 0 0
  simp only [Nat.zero_mul, Nat.zero_add] at hscan
  have key : readSign (skipSpace (ws ++ sg ++ (d :: ds') ++ rest))
      = (decide (sg = ['-']), (d :: ds') ++ rest) := by
    rcases hsg with rfl | rfl | rfl
    · rw [List.append_nil, List.append_assoc, skipSpace_spaces ws _ hws]
      show readSign (skipSpace (d :: (ds' ++ rest))) = _
      rw [skipSpace_nonspace d _ (isdigit_not_space d hd), readSign_digit d _ hd]
      simp
    · rw [List.append_assoc, List.append_assoc, skipSpace_spaces ws _ hws]
      show readSign (skipSpace ('+' :: ((d :: ds') ++ rest))) = _
      rw [skipSpace_nonspace '+' _ (by decide)]
      rfl
    · rw [List.append_assoc, List.append_assoc, skipSpace_spaces ws _ hws]
      show readSign (skipSpace ('-' :: ((d :: ds') ++ rest))) = _
      rw [skipSpace_nonspace '-' _ (by decide)]
      rfl
  simp only [strtol, key, hscan, if_neg hlen]


theorem toUnsignedLong_clamp_pos (v : Nat) :
    toUnsignedLong (clampLong false v) = if v < 2 ^ 63 then v else 2 ^ 63 - 1 := by
  have e : clampLong false v = if (2 : Int) ^ 63 - 1 < (v : Int) then 2 ^ 63 - 1 else (v : Int) := by
    simp [clampLong, LONG_MAX, LONG_BIT]
  rw [e]
  unfold toUnsignedLong
  simp only [LONG_BIT]
  split_ifs <;> omega


/-! ## The loop body meets its case-by-case description -/

theorem take_stored (bs rest : List Byte) : (bs ++ rest).take bs.length = bs := by
  simp

theorem stdinPhase_spec (sock : Int) (st : St) : StdinSpec sock st (stdinPhase sock st) := by
  unfold stdinPhase
  by_cases h : ready st.revents0 = true
  · rw [if_pos h]
    rcases hr : st.stdinReads with _ | ⟨r, rs⟩
    · have := @StdinSpec.readBlocked sock st h hr
      simpa only [St.emit, hr, List.append_assoc, List.cons_append, List.nil_append] using this
    · cases r with
      | fail =>
        have := @StdinSpec.readFailed sock st h rs hr
        simpa only [St.emit, hr, List.append_assoc, List.cons_append, List.nil_append]
          using this
      | data d =>
        rcases hw : st.writes with _ | ⟨w, ws⟩
        · have := @StdinSpec.writeBlocked sock st h d _ rs rfl hr hw
          simpa only [St.emit, St.afterStdinRead, hr, hw, take_stored, List.append_assoc,
            List.cons_append, List.nil_append] using this
        · by_cases hneg : w < 0
          · have := @StdinSpec.writeFailed sock st h d _ rs w ws rfl hr hw hneg
            simpa only [St.emit, St.afterStdinRead, hr, hw, take_stored, List.append_assoc,
              List.cons_append, List.nil_append, if_pos hneg] using this
          · by_cases hne : w = ((d.take BUFSZ).length : Int)
            · have := @StdinSpec.forwarded sock st h d _ rs ws rfl hr (hne ▸ hw)
              simp only [St.emit, St.afterStdinRead, hr, hw, take_stored, List.append_assoc,
                List.cons_append, List.nil_append, if_neg hneg, ne_eq, hne, not_true,
                if_false] at this ⊢
              exact this
            · have := @StdinSpec.writeShort sock st h d _ rs w ws rfl hr hw hneg hne
              simpa only [St.emit, St.afterStdinRead, hr, hw, take_stored, List.append_assoc,
                List.cons_append, List.nil_append, if_neg hneg, ne_eq, hne, not_false_eq_true,
                if_true] using this
  · rw [if_neg h]
    exact StdinSpec.idle (by simpa using h)

theorem sockPhase_spec (sock : Int) (st : St) : SockSpec sock st (sockPhase sock st) := by
  unfold sockPhase
  by_cases h : ready st.revents1 = true
  · rw [if_pos h]
    rcases hr : st.sockReads with _ | ⟨r, rs⟩
    · have := @SockSpec.readBlocked sock st h hr
      simpa only [St.emit, hr, List.append_assoc, List.cons_append, List.nil_append] using this
    · cases r with
      | fail =>
        have := @SockSpec.readFailed sock st h rs hr
        simpa only [St.emit, hr, List.append_assoc, List.cons_append, List.nil_append]
          using this
      | data d =>
        have := @SockSpec.received sock st h d _ rs rfl hr
        by_cases h0 : (d.take BUFSZ).length = 0
        · simpa only [St.emit, St.afterSockRead, sockLogs, hr, h0, if_true, List.append_assoc,
            List.cons_append, List.nil_append] using this
        · simpa only [St.emit, St.afterSockRead, sockLogs, hr, h0, if_false, List.append_assoc,
            List.cons_append, List.nil_append] using this
  · rw [if_neg h]
    exact SockSpec.idle (by simpa using h)

/-- The loop body, in terms of its two parts. -/
theorem body_eq (sock : Int) (p : PollRes) (st : St) :
    body sock p st =
      if p.ret < 0 then
        .stop (.returned (-1))
          { st with trace := st.trace ++ [.poll (some p), .warn .poll] }
      else
        match stdinPhase sock (st.polled p) with
        | .stop o st' => .stop o st'
        | .cont st' => sockPhase sock st' := by
  unfold body
  simp only [St.emit, St.polled, List.append_assoc, List.cons_append, List.nil_append]

/-! ## Reasoning about the loop -/

/-- Induction over the loop: a property of every loop-head state that every
complete pass preserves, and a property of the run that every way of ending
establishes. -/
theorem dnc_loop_induct (sock : Int) (pr : Bool) (Inv : St → Prop) (Post : Run → Prop)
    (hbrk : ∀ st, Inv st → breaks (enter st) = true → Post (terminalWait pr (enter st)))
    (hblk : ∀ st, Inv st → breaks (enter st) = false →
      Post ⟨.blocked, (enter st).emit (.poll none)⟩)
    (hstop : ∀ st p o st', Inv st → breaks (enter st) = false →
      body sock p (enter st) = .stop o st' → Post ⟨o, st'⟩)
    (hcont : ∀ st p st', Inv st → breaks (enter st) = false →
      body sock p (enter st) = .cont st' → Inv st') :
    ∀ (ps : List PollRes) (st : St), Inv st → Post (dnc_loop sock pr ps st) := by
  intro ps
  induction ps with
  | nil =>
    intro st hinv
    unfold dnc_loop
    by_cases hb : breaks (enter st) = true
    · rw [if_pos hb]; exact hbrk st hinv hb
    · rw [if_neg hb]; exact hblk st hinv (by simpa using hb)
  | cons p ps ih =>
    intro st hinv
    unfold dnc_loop
    by_cases hb : breaks (enter st) = true
    · rw [if_pos hb]; exact hbrk st hinv hb
    · rw [if_neg hb]
      have hb' : breaks (enter st) = false := by simpa using hb
      cases hbody : body sock p (enter st) with
      | cont st' => exact ih st' (hcont st p st' hinv hb' hbody)
      | stop o st' => exact hstop st p o st' hinv hb' hbody

/-- A property that every complete pass preserves holds at every loop head
reached. -/
theorem headAfter_inv (sock : Int) (Inv : St → Prop)
    (hcont : ∀ st p st', Inv st → breaks (enter st) = false →
      body sock p (enter st) = .cont st' → Inv st') :
    ∀ (k : Nat) (ps : List PollRes) (st st' : St), Inv st →
      headAfter sock k ps st = some st' → Inv st' := by
  intro k
  induction k with
  | zero =>
    intro ps st st' hinv h
    simp only [headAfter, Option.some.injEq] at h
    exact h ▸ hinv
  | succ k ih =>
    intro ps st st' hinv h
    cases ps with
    | nil => simp [headAfter] at h
    | cons p ps =>
      unfold headAfter at h
      by_cases hb : breaks (enter st) = true
      · rw [if_pos hb] at h; cases h
      · rw [if_neg hb] at h
        have hb' : breaks (enter st) = false := by simpa using hb
        cases hbody : body sock p (enter st) with
        | cont s =>
          rw [hbody] at h
          exact ih ps s st' (hcont st p s hinv hb' hbody) h
        | stop o s => rw [hbody] at h; cases h

/-- A complete pass of the body: the state it starts from, the poll result,
and the two parts it ran. -/
theorem body_cont_inv {sock : Int} {p : PollRes} {st st' : St}
    (h : body sock p st = .cont st') :
    ¬ p.ret < 0 ∧ ∃ s, stdinPhase sock (st.polled p) = .cont s ∧ sockPhase sock s = .cont st' := by
  rw [body_eq] at h
  by_cases hp : p.ret < 0
  · rw [if_pos hp] at h; cases h
  · rw [if_neg hp] at h
    refine ⟨hp, ?_⟩
    cases hs : stdinPhase sock (st.polled p) with
    | cont s => rw [hs] at h; exact ⟨s, rfl, h⟩
    | stop o s => rw [hs] at h; cases h

/-- A pass of the body that ends the function: `poll` failed, or the `stdin`
part ended it, or the `stdin` part went through and the socket part ended it. -/
theorem body_stop_inv {sock : Int} {p : PollRes} {st st' : St} {o : Outcome}
    (h : body sock p st = .stop o st') :
    (p.ret < 0 ∧ o = .returned (-1) ∧
      st' = { st with trace := st.trace ++ [.poll (some p), .warn .poll] }) ∨
    (¬ p.ret < 0 ∧ stdinPhase sock (st.polled p) = .stop o st') ∨
    (¬ p.ret < 0 ∧ ∃ s, stdinPhase sock (st.polled p) = .cont s ∧
      sockPhase sock s = .stop o st') := by
  rw [body_eq] at h
  by_cases hp : p.ret < 0
  · rw [if_pos hp] at h
    injection h with h1 h2
    exact Or.inl ⟨hp, h1.symm, h2.symm⟩
  · rw [if_neg hp] at h
    cases hs : stdinPhase sock (st.polled p) with
    | cont s => rw [hs] at h; exact Or.inr (Or.inr ⟨hp, s, rfl, h⟩)
    | stop o2 s =>
      rw [hs] at h
      injection h with h1 h2
      subst h1 h2
      exact Or.inr (Or.inl ⟨hp, rfl⟩)

/-! ## Forwarding of standard input -/

theorem stdinBytes_append (a b : List Event) :
    stdinBytes (a ++ b) = stdinBytes a ++ stdinBytes b := by
  induction a with
  | nil => rfl
  | cons e a ih => simp [stdinBytes, ih]

theorem requestedBytes_append (sock : Int) (a b : List Event) :
    requestedBytes sock (a ++ b) = requestedBytes sock a ++ requestedBytes sock b := by
  induction a with
  | nil => rfl
  | cons e a ih => simp [requestedBytes, ih]

theorem socketBytes_eq_requested (sock : Int) (t : List Event)
    (h : ∀ e ∈ t, e.fullWrite = true) : socketBytes sock t = requestedBytes sock t := by
  induction t with
  | nil => rfl
  | cons e t ih =>
    have he : e.fullWrite = true := h e (by simp)
    have ht := ih (fun x hx => h x (by simp [hx]))
    simp only [socketBytes, requestedBytes, ht]
    congr 1
    cases e with
    | write i fd bs r =>
      simp only [Event.fullWrite, decide_eq_true_eq] at he
      subst he
      simp [Event.transferred, Event.requested]
    | _ => rfl

theorem Forwarded_append (sock : Int) (a b : List Event) (ha : Forwarded sock a)
    (hb : Forwarded sock b) : Forwarded sock (a ++ b) := by
  induction a with
  | nil => exact hb
  | cons e a ih =>
    refine ⟨?_, ih ha.2⟩
    intro fd bs he
    obtain ⟨r, t', ht⟩ := ha.1 fd bs he
    exact ⟨r, t' ++ b, by simp [ht]⟩

theorem Forwarded_split (sock : Int) (t pre post : List Event) (fd : Int) (bs : List Byte)
    (h : Forwarded sock t) (ht : t = pre ++ .read 0 fd (some (.data bs)) :: post) :
    ∃ r post', post = .log (.writingToSocket bs.length) :: .write 1 sock bs r :: post' := by
  subst ht
  induction pre with
  | nil => exact h.1 fd bs rfl
  | cons e pre ih => exact ih h.2

theorem requestedBytes_sockLogs (sock : Int) (n : Nat) :
    requestedBytes sock (sockLogs n) = [] := by
  unfold sockLogs; split <;> simp [requestedBytes, Event.requested]

theorem stdinBytes_sockLogs (n : Nat) : stdinBytes (sockLogs n) = [] := by
  unfold sockLogs; split <;> simp [stdinBytes, Event.stdinData]

theorem Forwarded_sockLogs (sock : Int) (n : Nat) : Forwarded sock (sockLogs n) := by
  unfold sockLogs; split <;> simp [Forwarded]

/-- Invariant of the relay loop: what was handed to `write` is what was read
from standard input, and every such read was forwarded at once. -/
theorem forwarding_inv (sock : Int) (env : Env) :
    requestedBytes sock (dnc_connection sock env).st.trace
        = stdinBytes (dnc_connection sock env).st.trace
      ∧ Forwarded sock (dnc_connection sock env).st.trace := by
  unfold dnc_connection
  refine dnc_loop_induct sock env.pauseReturns
    (fun st => requestedBytes sock st.trace = stdinBytes st.trace ∧ Forwarded sock st.trace)
    (fun r => requestedBytes sock r.st.trace = stdinBytes r.st.trace
      ∧ Forwarded sock r.st.trace) ?_ ?_ ?_ ?_ env.polls (initSt env) ?_
  · intro st ⟨h1, h2⟩ _
    unfold terminalWait
    split <;>
    · refine ⟨?_, ?_⟩
      · simp [enter, St.emit, requestedBytes_append, stdinBytes_append, h1, requestedBytes,
          stdinBytes, Event.requested, Event.stdinData]
      · simp only [enter, St.emit, List.append_assoc]
        refine Forwarded_append sock _ _ h2 ?_
        simp [Forwarded]
  · intro st ⟨h1, h2⟩ _
    refine ⟨?_, ?_⟩
    · simp [enter, St.emit, requestedBytes_append, stdinBytes_append, h1, requestedBytes,
        stdinBytes, Event.requested, Event.stdinData]
    · simp only [enter, St.emit, List.append_assoc]
      refine Forwarded_append sock _ _ h2 ?_
      simp [Forwarded]
  · intro st p o st' ⟨h1, h2⟩ _ hbody
    rcases body_stop_inv hbody with ⟨_, _, rfl⟩ | ⟨_, hs⟩ | ⟨_, s, hs, hk⟩
    · refine ⟨?_, ?_⟩
      · simp [enter, St.emit, requestedBytes_append, stdinBytes_append, h1, requestedBytes,
          stdinBytes, Event.requested, Event.stdinData]
      · simp only [enter, St.emit, List.append_assoc]
        refine Forwarded_append sock _ _ h2 ?_
        simp [Forwarded]
    · have H := stdinPhase_spec sock ((enter st).polled p)
      rw [hs] at H
      cases H <;>
      · refine ⟨?_, ?_⟩
        · simp [enter, St.emit, St.polled, St.afterStdinRead, requestedBytes_append,
            stdinBytes_append, h1, requestedBytes, stdinBytes, Event.requested,
            Event.stdinData]
        · simp only [enter, St.emit, St.polled, St.afterStdinRead, List.append_assoc]
          refine Forwarded_append sock _ _ h2 ?_
          simp [Forwarded]
    · have H := stdinPhase_spec sock ((enter st).polled p)
      rw [hs] at H
      have K := sockPhase_spec sock s
      rw [hk] at K
      cases H <;> cases K <;>
      · refine ⟨?_, ?_⟩
        · simp [enter, St.emit, St.polled, St.afterStdinRead, requestedBytes_append,
            stdinBytes_append, h1, requestedBytes, stdinBytes, Event.requested,
            Event.stdinData]
        · simp only [enter, St.emit, St.polled, St.afterStdinRead, List.append_assoc]
          refine Forwarded_append sock _ _ h2 ?_
          simp [Forwarded]
  · intro st p st' ⟨h1, h2⟩ _ hbody
    obtain ⟨_, s, hs, hk⟩ := body_cont_inv hbody
    have H := stdinPhase_spec sock ((enter st).polled p)
    rw [hs] at H
    have K := sockPhase_spec sock s
    rw [hk] at K
    cases H <;> cases K <;>
    · refine ⟨?_, ?_⟩
      · simp [enter, St.emit, St.polled, St.afterStdinRead, St.afterSockRead,
          requestedBytes_append, stdinBytes_append, h1, requestedBytes, stdinBytes,
          Event.requested, Event.stdinData, requestedBytes_sockLogs, stdinBytes_sockLogs]
      · simp only [enter, St.emit, St.polled, St.afterStdinRead, St.afterSockRead,
          List.append_assoc]
        refine Forwarded_append sock _ _ h2 ?_
        first
          | (simp [Forwarded]; done)
          | (repeat (first
              | exact Forwarded_sockLogs sock _
              | refine ⟨by simp, ?_⟩))
  · exact ⟨rfl, trivial⟩

/-! ## Interest and end-of-stream -/

theorem zeroReadSeen_sockLogs (i n : Nat) : zeroReadSeen i (sockLogs n) = false := by
  unfold sockLogs zeroReadSeen; split <;> simp [Event.isZeroRead]

theorem interestInv_init (env : Env) : InterestInv (initSt env) := by
  simp [InterestInv, initSt, zeroReadSeen, POLLIN]

theorem interestInv_pass (sock : Int) (st : St) (p : PollRes) (st' : St)
    (hinv : InterestInv st) (hbody : body sock p (enter st) = .cont st') :
    InterestInv st' := by
  obtain ⟨h1, h2⟩ := hinv
  obtain ⟨_, s, hs, hk⟩ := body_cont_inv hbody
  have H := stdinPhase_spec sock ((enter st).polled p)
  rw [hs] at H
  have K := sockPhase_spec sock s
  rw [hk] at K
  cases H <;> cases K <;>
  · simp only [InterestInv, zeroReadSeen] at h1 h2 ⊢
    have e := zeroReadSeen_sockLogs
    simp only [zeroReadSeen] at e
    simp [enter, St.emit, St.polled, St.afterStdinRead, St.afterSockRead, h1, h2, e,
      Event.isZeroRead]
    try simp only [or_iff_not_imp_right, iff_self, and_self]

theorem stdinPhase_extends (sock : Int) (s : St) :
    ∃ rest, (stdinPhase sock s).st.trace = s.trace ++ rest := by
  have H := stdinPhase_spec sock s
  generalize stdinPhase sock s = r at H
  cases H <;> simp [Step.st, St.afterStdinRead]

theorem sockPhase_extends (sock : Int) (s : St) :
    ∃ rest, (sockPhase sock s).st.trace = s.trace ++ rest := by
  have H := sockPhase_spec sock s
  generalize sockPhase sock s = r at H
  cases H <;> simp [Step.st, St.afterSockRead]

/-- A pass of the body starts with the `poll` call. -/
theorem body_extends (sock : Int) (p : PollRes) (s : St) :
    ∃ rest, (body sock p s).st.trace = s.trace ++ .poll (some p) :: rest := by
  rw [body_eq]
  by_cases hp : p.ret < 0
  · rw [if_pos hp]; exact ⟨[.warn .poll], rfl⟩
  · rw [if_neg hp]
    obtain ⟨r1, h1⟩ := stdinPhase_extends sock (s.polled p)
    cases hs : stdinPhase sock (s.polled p) with
    | stop o s1 =>
      rw [hs] at h1
      simp only [Step.st] at h1 ⊢
      rw [h1]
      simp [St.polled]
    | cont s1 =>
      rw [hs] at h1
      obtain ⟨r2, h2⟩ := sockPhase_extends sock s1
      simp only [Step.st] at h1
      simp only
      rw [h2, h1]
      simp [St.polled]

/-- The trace only grows along the loop. -/
theorem dnc_loop_extends (sock : Int) (pr : Bool) (ps : List PollRes) (st : St) :
    ∃ rest, (dnc_loop sock pr ps st).st.trace = st.trace ++ rest := by
  refine dnc_loop_induct sock pr (fun s => ∃ rest, s.trace = st.trace ++ rest)
    (fun r => ∃ rest, r.st.trace = st.trace ++ rest) ?_ ?_ ?_ ?_ ps st ⟨[], by simp⟩
  · rintro s ⟨rest, hr⟩ _
    unfold terminalWait
    split <;> simp [enter, St.emit, hr]
  · rintro s ⟨rest, hr⟩ _
    simp [enter, St.emit, hr]
  · rintro s p o s' ⟨rest, hr⟩ _ hbody
    obtain ⟨r, h⟩ := body_extends sock p (enter s)
    rw [hbody] at h
    simp only [Step.st] at h
    simp [h, enter, St.emit, hr]
  · rintro s p s' ⟨rest, hr⟩ _ hbody
    obtain ⟨r, h⟩ := body_extends sock p (enter s)
    rw [hbody] at h
    simp only [Step.st] at h
    simp [h, enter, St.emit, hr]

/-- At a loop head where the exit test fails, `poll` is the next call. -/
theorem dnc_loop_polls (sock : Int) (pr : Bool) (ps : List PollRes) (st : St)
    (hb : breaks (enter st) = false) :
    ∃ r rest, (dnc_loop sock pr ps st).st.trace
      = st.trace ++ .log .enteringPoll :: .poll r :: rest := by
  cases ps with
  | nil =>
    unfold dnc_loop
    rw [if_neg (by simp [hb])]
    exact ⟨none, [], by simp [enter, St.emit]⟩
  | cons p ps =>
    unfold dnc_loop
    rw [if_neg (by simp [hb])]
    obtain ⟨r, h⟩ := body_extends sock p (enter st)
    cases hbody : body sock p (enter st) with
    | stop o s =>
      rw [hbody] at h
      simp only [Step.st] at h
      exact ⟨some p, r, by simp [h, enter, St.emit]⟩
    | cont s =>
      rw [hbody] at h
      simp only [Step.st] at h
      obtain ⟨r2, h2⟩ := dnc_loop_extends sock pr ps s
      exact ⟨some p, r ++ r2, by simp [h2, h, enter, St.emit]⟩

/-- At a loop head where the exit test holds, the loop is left for the
terminal wait. -/
theorem dnc_loop_breaks (sock : Int) (pr : Bool) (ps : List PollRes) (st : St)
    (hb : breaks (enter st) = true) :
    dnc_loop sock pr ps st = terminalWait pr (enter st) := by
  cases ps <;> (unfold dnc_loop; rw [if_pos hb])

/-- The run from the start is the run from any loop head it reaches. -/
theorem dnc_loop_headAfter (sock : Int) (pr : Bool) :
    ∀ (k : Nat) (ps : List PollRes) (st st' : St), headAfter sock k ps st = some st' →
      dnc_loop sock pr ps st = dnc_loop sock pr (ps.drop k) st' := by
  intro k
  induction k with
  | zero =>
    intro ps st st' h
    simp only [headAfter, Option.some.injEq] at h
    subst h
    simp
  | succ k ih =>
    intro ps st st' h
    cases ps with
    | nil => simp [headAfter] at h
    | cons p ps =>
      unfold headAfter at h
      by_cases hb : breaks (enter st) = true
      · rw [if_pos hb] at h; cases h
      · rw [if_neg hb] at h
        cases hbody : body sock p (enter st) with
        | cont s =>
          rw [hbody] at h
          rw [dnc_loop, if_neg hb, hbody]
          simpa using ih ps s st' h
        | stop o s => rw [hbody] at h; cases h

theorem terminalWait_trace (pr : Bool) (st : St) :
    (terminalWait pr (enter st)).st.trace
      = st.trace ++ [.log .enteringPoll, .log .eosBoth, .log .pausing, .pause] := by
  unfold terminalWait
  split <;> simp [enter, St.emit]

theorem breaks_enter (st : St) :
    breaks (enter st) = true ↔ st.events0 = 0 ∧ st.events1 = 0 := by
  simp [breaks, enter, St.emit]

/-! ## Failures end the run -/

theorem noFailure_append (a b : List Event) :
    noFailure (a ++ b) = (noFailure a && noFailure b) := by
  simp [noFailure]

theorem noFailure_cons (e : Event) (t : List Event) :
    noFailure (e :: t) = (!e.failed && noFailure t) := by
  simp [noFailure]

theorem noFailure_nil : noFailure [] = true := rfl

theorem noFailure_sockLogs (n : Nat) : noFailure (sockLogs n) = true := by
  unfold sockLogs; split <;> simp [noFailure, Event.failed]

theorem FailureEnds_append (a b : List Event) (ha : noFailure a = true)
    (hb : FailureEnds b) : FailureEnds (a ++ b) := by
  induction a with
  | nil => exact hb
  | cons e a ih =>
    simp only [noFailure_cons, Bool.and_eq_true, Bool.not_eq_true'] at ha
    refine ⟨?_, ih ha.2⟩
    intro he
    rw [ha.1] at he
    cases he

theorem FailureEnds_of_noFailure (a : List Event) (ha : noFailure a = true) :
    FailureEnds a := by
  have := FailureEnds_append a [] ha trivial
  simpa using this

theorem FailureEnds_split (t pre post : List Event) (e : Event) (h : FailureEnds t)
    (ht : t = pre ++ e :: post) (he : e.failed = true) : post = [.warn e.diag] := by
  subst ht
  induction pre with
  | nil => exact h.1 he
  | cons x pre ih => exact ih h.2

theorem noFailure_of_mem (t : List Event) (e : Event) (he : e ∈ t) (hf : e.failed = true) :
    noFailure t = false := by
  cases h : noFailure t with
  | false => rfl
  | true =>
    simp only [noFailure, List.all_eq_true, Bool.not_eq_true'] at h
    rw [h e he] at hf; cases hf

/-- Invariant of the relay loop: no call has failed when a loop head is
reached; in the run, a failed call is followed by its diagnostic alone, and
the function then returns -1. -/
theorem failure_inv (sock : Int) (env : Env) :
    FailureEnds (dnc_connection sock env).st.trace ∧
    (noFailure (dnc_connection sock env).st.trace = false →
      (dnc_connection sock env).out = .returned (-1)) := by
  unfold dnc_connection
  refine dnc_loop_induct sock env.pauseReturns
    (fun st => noFailure st.trace = true)
    (fun r => FailureEnds r.st.trace ∧
      (noFailure r.st.trace = false → r.out = .returned (-1)))
    ?_ ?_ ?_ ?_ env.polls (initSt env) ?_
  · intro st h _
    have hc : noFailure (terminalWait env.pauseReturns (enter st)).st.trace = true := by
      rw [terminalWait_trace]
      simp [noFailure_append, noFailure_cons, noFailure_nil, h, Event.failed]
    exact ⟨FailureEnds_of_noFailure _ hc, fun hf => by rw [hc] at hf; cases hf⟩
  · intro st h _
    have hc : noFailure ((enter st).emit (.poll none)).trace = true := by
      simp [enter, St.emit, noFailure_append, noFailure_cons, noFailure_nil, h, Event.failed]
    exact ⟨FailureEnds_of_noFailure _ hc, fun hf => by rw [hc] at hf; cases hf⟩
  · intro st p o st' h _ hbody
    rcases body_stop_inv hbody with ⟨hp, rfl, rfl⟩ | ⟨hp, hs⟩ | ⟨hp, s, hs, hk⟩
    · refine ⟨?_, fun _ => rfl⟩
      simp only [enter, St.emit, List.append_assoc]
      refine FailureEnds_append _ _ h ?_
      simp [FailureEnds, Event.failed, Event.diag]
    · have H := stdinPhase_spec sock ((enter st).polled p)
      rw [hs] at H
      cases H <;>
      · refine ⟨?_, ?_⟩
        · simp only [enter, St.emit, St.polled, St.afterStdinRead, List.append_assoc]
          refine FailureEnds_append _ _ h ?_
          simp [FailureEnds, Event.failed, Event.diag, *]
        · first
            | (intro _; rfl)
            | (intro hf
               simp [enter, St.emit, St.polled, St.afterStdinRead, noFailure_append,
                 noFailure_cons, noFailure_nil, h, Event.failed, hp] at hf)
    · have H := stdinPhase_spec sock ((enter st).polled p)
      rw [hs] at H
      have K := sockPhase_spec sock s
      rw [hk] at K
      cases H <;> cases K <;>
      · refine ⟨?_, ?_⟩
        · simp only [enter, St.emit, St.polled, St.afterStdinRead, List.append_assoc]
          refine FailureEnds_append _ _ h ?_
          simp [FailureEnds, Event.failed, Event.diag, *]
        · first
            | (intro _; rfl)
            | (intro hf
               simp [enter, St.emit, St.polled, St.afterStdinRead, noFailure_append,
                 noFailure_cons, noFailure_nil, h, Event.failed, hp] at hf)
  · intro st p st' h _ hbody
    obtain ⟨hp, s, hs, hk⟩ := body_cont_inv hbody
    have H := stdinPhase_spec sock ((enter st).polled p)
    rw [hs] at H
    have K := sockPhase_spec sock s
    rw [hk] at K
    cases H <;> cases K <;>
    · simp [enter, St.emit, St.polled, St.afterStdinRead, St.afterSockRead, noFailure_append,
        noFailure_cons, noFailure_nil, noFailure_sockLogs, h, Event.failed, hp]
  · rfl

/-! ## What is written, and what a socket read produces -/

theorem WritesJustified_append (sock : Int) (a b : List Event) (ha : WritesJustified sock a)
    (hb : WritesJustified sock b) : WritesJustified sock (a ++ b) := by
  induction a with
  | nil => exact hb
  | cons e a ih =>
    refine ⟨?_, ih ha.2⟩
    intro i fd bs r he
    obtain ⟨h1, h2, o, ho⟩ := ha.1 i fd bs r he
    exact ⟨h1, h2, o ++ b, by simp [ho]⟩

theorem WritesJustified_split (sock : Int) (t newer older : List Event) (i : Nat) (fd : Int)
    (bs : List Byte) (r : Option Int) (h : WritesJustified sock t)
    (ht : t = newer ++ .write i fd bs r :: older) :
    i = 1 ∧ fd = sock ∧
      ∃ older', older = .log (.writingToSocket bs.length)
        :: .read 0 STDIN_FILENO (some (.data bs)) :: older' := by
  subst ht
  induction newer with
  | nil => exact h.1 i fd bs r rfl
  | cons e newer ih => exact ih h.2

theorem WritesJustified_sockLogs (sock : Int) (n : Nat) :
    WritesJustified sock (sockLogs n).reverse := by
  unfold sockLogs; split <;> simp [WritesJustified]

theorem SockReadsLogged_append (strict : Bool) (a b : List Event)
    (ha : SockReadsLogged false a) (hb : SockReadsLogged strict b) (hh : AtHead b) :
    SockReadsLogged strict (a ++ b) := by
  induction a with
  | nil => exact hb
  | cons e a ih =>
    refine ⟨?_, ih ha.2⟩
    intro fd bs he
    obtain ⟨t', ht, hc⟩ := ha.1 fd bs he
    refine ⟨t' ++ b, by simp [ht], ?_⟩
    rcases hc with ⟨u, hu⟩ | ⟨_, hnil⟩
    · exact Or.inl ⟨u ++ b, by simp [hu]⟩
    · subst hnil
      exact Or.inl (by simpa using hh)

theorem SockReadsLogged_split (strict : Bool) (t pre post : List Event) (fd : Int)
    (bs : List Byte) (h : SockReadsLogged strict t)
    (ht : t = pre ++ .read 1 fd (some (.data bs)) :: post) :
    ∃ t', post = sockLogs bs.length ++ t' ∧ (AtHead t' ∨ (strict = false ∧ t' = [])) := by
  subst ht
  induction pre with
  | nil => exact h.1 fd bs rfl
  | cons e pre ih => exact ih h.2

theorem SockReadsLogged_sockLogs (strict : Bool) (n : Nat) (t : List Event) :
    SockReadsLogged strict (sockLogs n ++ t) ↔ SockReadsLogged strict t := by
  unfold sockLogs; split <;> simp [SockReadsLogged]

theorem SockReadsLogged_sockLogs_only (strict : Bool) (n : Nat) :
    SockReadsLogged strict (sockLogs n) := by
  unfold sockLogs; split <;> simp [SockReadsLogged]

/-- Invariant of the relay loop: every `write` so far goes to the socket with
the bytes of the stdin read just before it, and every socket read so far
produced its log lines only. -/
theorem writes_inv (sock : Int) (env : Env) :
    WritesJustified sock (dnc_connection sock env).st.trace.reverse ∧
    SockReadsLogged true (dnc_connection sock env).st.trace := by
  unfold dnc_connection
  refine dnc_loop_induct sock env.pauseReturns
    (fun st => WritesJustified sock st.trace.reverse ∧ SockReadsLogged false st.trace)
    (fun r => WritesJustified sock r.st.trace.reverse ∧ SockReadsLogged true r.st.trace)
    ?_ ?_ ?_ ?_ env.polls (initSt env) ?_
  · intro st ⟨h1, h2⟩ _
    rw [terminalWait_trace]
    refine ⟨?_, ?_⟩
    · rw [List.reverse_append]
      refine WritesJustified_append sock _ _ ?_ h1
      simp [WritesJustified]
    · refine SockReadsLogged_append true _ _ h2 ?_ ⟨_, rfl⟩
      simp [SockReadsLogged]
  · intro st ⟨h1, h2⟩ _
    simp only [enter, St.emit, List.append_assoc]
    refine ⟨?_, ?_⟩
    · rw [List.reverse_append]
      refine WritesJustified_append sock _ _ ?_ h1
      simp [WritesJustified]
    · refine SockReadsLogged_append true _ _ h2 ?_ ⟨_, rfl⟩
      simp [SockReadsLogged]
  · intro st p o st' ⟨h1, h2⟩ _ hbody
    rcases body_stop_inv hbody with ⟨hp, rfl, rfl⟩ | ⟨hp, hs⟩ | ⟨hp, s, hs, hk⟩
    · simp only [enter, St.emit, List.append_assoc]
      refine ⟨?_, ?_⟩
      · rw [List.reverse_append]
        refine WritesJustified_append sock _ _ ?_ h1
        simp [WritesJustified]
      · refine SockReadsLogged_append true _ _ h2 ?_ ⟨_, rfl⟩
        simp [SockReadsLogged]
    · have H := stdinPhase_spec sock ((enter st).polled p)
      rw [hs] at H
      cases H <;>
      · simp only [enter, St.emit, St.polled, St.afterStdinRead, List.append_assoc]
        refine ⟨?_, ?_⟩
        · rw [List.reverse_append]
          refine WritesJustified_append sock _ _ ?_ h1
          simp [WritesJustified]
          try (rintro _ _ _ _ rfl rfl rfl _; simp)
        · refine SockReadsLogged_append true _ _ h2 ?_ ⟨_, rfl⟩
          simp [SockReadsLogged]
    · have H := stdinPhase_spec sock ((enter st).polled p)
      rw [hs] at H
      have K := sockPhase_spec sock s
      rw [hk] at K
      cases H <;> cases K <;>
      · simp only [enter, St.emit, St.polled, St.afterStdinRead, List.append_assoc]
        refine ⟨?_, ?_⟩
        · rw [List.reverse_append]
          refine WritesJustified_append sock _ _ ?_ h1
          simp [WritesJustified]
          try (rintro _ _ _ _ rfl rfl rfl _; simp)
        · refine SockReadsLogged_append true _ _ h2 ?_ ⟨_, rfl⟩
          simp [SockReadsLogged]
  · intro st p st' ⟨h1, h2⟩ _ hbody
    obtain ⟨hp, s, hs, hk⟩ := body_cont_inv hbody
    have H := stdinPhase_spec sock ((enter st).polled p)
    rw [hs] at H
    have K := sockPhase_spec sock s
    rw [hk] at K
    cases H <;> cases K <;>
    · simp only [enter, St.emit, St.polled, St.afterStdinRead, St.afterSockRead,
        List.append_assoc]
      refine ⟨?_, ?_⟩
      · rw [List.reverse_append]
        refine WritesJustified_append sock _ _ ?_ h1
        first
          | (simp [WritesJustified]; done)
          | (simp [WritesJustified]
             rintro _ _ _ _ rfl rfl rfl _; simp)
          | (simp only [List.reverse_append, List.reverse_cons, List.reverse_nil,
               List.nil_append, List.append_assoc, List.cons_append]
             refine WritesJustified_append sock _ _ (WritesJustified_sockLogs sock _) ?_
             simp [WritesJustified]
             try (rintro _ _ _ _ rfl rfl rfl _; simp))
      · refine SockReadsLogged_append false _ _ h2 ?_ ⟨_, rfl⟩
        first
          | (simp [SockReadsLogged]; done)
          | simp [SockReadsLogged, SockReadsLogged_sockLogs, SockReadsLogged_sockLogs_only]
  · exact ⟨trivial, trivial⟩

/-! ## Failures and the exit status -/

theorem isRelay_sockLogs (n : Nat) : (sockLogs n).all Event.isRelay = true := by
  unfold sockLogs; split <;> simp [Event.isRelay]

/-- The relay performs only its own actions, and returns -1 or 0 if it
returns. -/
theorem relay_events (sock : Int) (env : Env) :
    (dnc_connection sock env).st.trace.all Event.isRelay = true ∧
    (∀ rv, (dnc_connection sock env).out = .returned rv → rv = -1 ∨ rv = 0) ∧
    (∀ s, (dnc_connection sock env).out ≠ .exited s) := by
  unfold dnc_connection
  refine dnc_loop_induct sock env.pauseReturns
    (fun st => st.trace.all Event.isRelay = true)
    (fun r => r.st.trace.all Event.isRelay = true ∧
      (∀ rv, r.out = .returned rv → rv = -1 ∨ rv = 0) ∧ (∀ s, r.out ≠ .exited s))
    ?_ ?_ ?_ ?_ env.polls (initSt env) ?_
  · intro st h _
    refine ⟨?_, ?_⟩
    · rw [terminalWait_trace]
      simp only [List.all_append, h, Bool.true_and]
      rfl
    · unfold terminalWait
      split <;> simp
  · intro st h _
    refine ⟨?_, by simp⟩
    simp only [enter, St.emit, List.append_assoc, List.all_append, h, Bool.true_and]
    rfl
  · intro st p o st' h _ hbody
    rcases body_stop_inv hbody with ⟨hp, rfl, rfl⟩ | ⟨hp, hs⟩ | ⟨hp, s, hs, hk⟩
    · refine ⟨?_, by simp⟩
      simp only [enter, St.emit, List.append_assoc, List.all_append, h, Bool.true_and]
      rfl
    · have H := stdinPhase_spec sock ((enter st).polled p)
      rw [hs] at H
      cases H <;>
      · refine ⟨?_, by simp⟩
        simp only [enter, St.emit, St.polled, St.afterStdinRead, List.append_assoc,
          List.all_append, h, Bool.true_and]
        rfl
    · have H := stdinPhase_spec sock ((enter st).polled p)
      rw [hs] at H
      have K := sockPhase_spec sock s
      rw [hk] at K
      cases H <;> cases K <;>
      · refine ⟨?_, by simp⟩
        simp only [enter, St.emit, St.polled, St.afterStdinRead, List.append_assoc,
          List.all_append, h, Bool.true_and]
        rfl
  · intro st p st' h _ hbody
    obtain ⟨hp, s, hs, hk⟩ := body_cont_inv hbody
    have H := stdinPhase_spec sock ((enter st).polled p)
    rw [hs] at H
    have K := sockPhase_spec sock s
    rw [hk] at K
    cases H <;> cases K <;>
    · simp only [enter, St.emit, St.polled, St.afterStdinRead, St.afterSockRead,
        List.append_assoc, List.all_append, h, Bool.true_and, isRelay_sockLogs]
      rfl
  · rfl

theorem isRelay_facts (e : Event) (h : e.isRelay = true) :
    e.setupFailed = false ∧ e ≠ .usage ∧ e.isAccept = false := by
  cases e <;> simp_all [Event.isRelay, Event.setupFailed, Event.isAccept]

theorem close_facts (fd : Int) :
    (Event.close fd).bad = false ∧ Event.close fd ≠ .usage := by
  simp [Event.bad, Event.setupFailed, Event.failed]

/-- In the relay's trace a failed call has its diagnostic. -/
theorem relay_failure_diag (sock : Int) (env : Env) (e : Event)
    (he : e ∈ (dnc_connection sock env).st.trace) (hf : e.failed = true) :
    (dnc_connection sock env).out = .returned (-1) ∧
    Event.warn e.diag ∈ (dnc_connection sock env).st.trace := by
  obtain ⟨h1, h2⟩ := failure_inv sock env
  refine ⟨h2 (noFailure_of_mem _ e he hf), ?_⟩
  obtain ⟨pre, post, ht⟩ := List.append_of_mem he
  have hp := FailureEnds_split _ pre post e h1 ht hf
  rw [ht, hp]
  simp

theorem relayOn_returned (fd : Int) (closing : List Int) (before : List Event) (env : Env)
    (rv : Int) (h : (dnc_connection fd env).out = .returned rv) :
    relayOn fd closing before env
      = ⟨.returned rv, before ++ (dnc_connection fd env).st.trace ++ closing.map Event.close⟩ := by
  unfold relayOn
  simp only [h]

theorem relayOn_other (fd : Int) (closing : List Int) (before : List Event) (env : Env)
    (h : ∀ rv, (dnc_connection fd env).out ≠ .returned rv) :
    relayOn fd closing before env
      = ⟨(dnc_connection fd env).out, before ++ (dnc_connection fd env).st.trace⟩ := by
  unfold relayOn
  cases hout : (dnc_connection fd env).out with
  | returned rv => exact absurd hout (h rv)
  | exited status => simp only [hout]
  | paused => simp only [hout]
  | blocked => simp only [hout]
  | aborted => simp only [hout]

theorem relayOn_fails_properly (fd : Int) (closing : List Int) (before : List Event)
    (env : Env)
    (hb : ∀ e ∈ before, e.bad = false ∧ e ≠ .usage) :
    FailsProperly (relayOn fd closing before env) := by
  obtain ⟨hrel, hrv, hex⟩ := relay_events fd env
  have hrel' : ∀ e ∈ (dnc_connection fd env).st.trace, e.isRelay = true := by
    simpa [List.all_eq_true] using hrel
  have hbad : ∀ e ∈ (dnc_connection fd env).st.trace, e.bad = true → e.failed = true := by
    intro e he hbd
    have := (isRelay_facts e (hrel' e he)).1
    simpa [Event.bad, this] using hbd
  have hmem : ∀ (tail : List Event), (∀ e ∈ tail, e.bad = false ∧ e ≠ .usage) →
      ∀ e ∈ before ++ (dnc_connection fd env).st.trace ++ tail,
        (e ≠ .usage) ∧ (e.bad = true →
          e ∈ (dnc_connection fd env).st.trace ∧ e.failed = true) := by
    intro tail htail e he
    simp only [List.mem_append] at he
    rcases he with (he | he) | he
    · exact ⟨(hb e he).2, fun h => by rw [(hb e he).1] at h; cases h⟩
    · exact ⟨(isRelay_facts e (hrel' e he)).2.1, fun h => ⟨he, hbad e he h⟩⟩
    · exact ⟨(htail e he).2, fun h => by rw [(htail e he).1] at h; cases h⟩
  have hclose : ∀ e ∈ closing.map Event.close, e.bad = false ∧ e ≠ .usage := by
    intro e he
    obtain ⟨c, _, rfl⟩ := List.mem_map.1 he
    exact close_facts c
  by_cases hret : ∃ rv, (dnc_connection fd env).out = .returned rv
  · obtain ⟨rv, hout⟩ := hret
    rw [relayOn_returned fd closing before env rv hout]
    have hm := hmem _ hclose
    refine ⟨?_, ?_, ?_⟩
    · constructor
      · intro h
        rcases hrv rv hout with rfl | rfl <;> simp [exitStatus] at h
      · intro h
        exact absurd rfl (hm _ h).1
    · intro e he hbd
      obtain ⟨hin, hf⟩ := (hm e he).2 hbd
      have := (relay_failure_diag fd env e hin hf).1
      rw [hout] at this
      rw [this]
    · intro e he hbd _
      obtain ⟨hin, hf⟩ := (hm e he).2 hbd
      have := (relay_failure_diag fd env e hin hf).2
      simp only [List.mem_append]
      exact Or.inl (Or.inr this)
  · have hno : ∀ rv, (dnc_connection fd env).out ≠ .returned rv :=
      fun rv h => hret ⟨rv, h⟩
    rw [relayOn_other fd closing before env hno]
    have hm := hmem [] (by simp)
    simp only [List.append_nil] at hm
    refine ⟨?_, ?_, ?_⟩
    · constructor
      · intro h
        cases hout : (dnc_connection fd env).out with
        | returned rv => exact absurd hout (hno rv)
        | exited status => exact absurd hout (hex status)
        | paused => rw [hout] at h; simp [exitStatus] at h
        | blocked => rw [hout] at h; simp [exitStatus] at h
        | aborted => rw [hout] at h; simp [exitStatus] at h
      · intro h
        exact absurd rfl (hm _ h).1
    · intro e he hbd
      obtain ⟨hin, hf⟩ := (hm e he).2 hbd
      exact absurd (relay_failure_diag fd env e hin hf).1 (hno _)
    · intro e he hbd _
      obtain ⟨hin, hf⟩ := (hm e he).2 hbd
      exact absurd (relay_failure_diag fd env e hin hf).1 (hno _)

theorem dnc_listen_fails_properly (dncp : dnc_t) (env : Env)
    (hf : dncp.dnc_flags &&& DNC_F_LISTEN ≠ 0) : FailsProperly (dnc_listen dncp env) := by
  unfold dnc_listen
  rw [if_neg hf]
  by_cases h1 : env.socketRet = -1
  · simp [h1, FailsProperly, exitStatus, Event.bad, Event.setupFailed, Event.failed,
      Event.diag, Event.isAccept]
  · by_cases h2 : env.bindRet = 0
    · by_cases h3 : env.listenRet = 0
      · by_cases h4 : env.acceptRet < 0
        · simp [h1, h2, h3, h4, FailsProperly, exitStatus, Event.bad, Event.setupFailed,
            Event.failed, Event.diag, Event.isAccept]
        · simp only [h1, h2, h3, h4, if_false, ne_eq, not_true_eq_false]
          apply relayOn_fails_properly
          simp [h1, h4, Event.bad, Event.setupFailed, Event.failed]
      · simp [h1, h2, h3, FailsProperly, exitStatus, Event.bad, Event.setupFailed,
          Event.failed, Event.diag, Event.isAccept]
    · simp [h1, h2, FailsProperly, exitStatus, Event.bad, Event.setupFailed, Event.failed,
        Event.diag, Event.isAccept]

theorem dnc_connect_fails_properly (dncp : dnc_t) (env : Env)
    (hf : dncp.dnc_flags &&& DNC_F_LISTEN = 0) : FailsProperly (dnc_connect dncp env) := by
  unfold dnc_connect
  rw [if_neg (by simp [hf])]
  by_cases h1 : env.socketRet = -1
  · simp [h1, FailsProperly, exitStatus, Event.bad, Event.setupFailed, Event.failed,
      Event.diag, Event.isAccept]
  · by_cases h2 : env.connectRet = 0
    · simp only [h1, h2, if_false, ne_eq, not_true_eq_false]
      apply relayOn_fails_properly
      simp [h1, Event.bad, Event.setupFailed, Event.failed]
    · simp [h1, h2, FailsProperly, exitStatus, Event.bad, Event.setupFailed, Event.failed,
        Event.diag, Event.isAccept]

theorem dnc_usage_fails_properly (t : List Event)
    (ht : ∀ e ∈ t, e.bad = false) :
    FailsProperly (dnc_usage t) := by
  unfold dnc_usage
  refine ⟨?_, ?_, ?_⟩
  · simp [exitStatus]
  · intro e he hb
    simp only [List.mem_append, List.mem_singleton] at he
    rcases he with he | rfl
    · rw [ht e he] at hb; cases hb
    · simp [Event.bad, Event.setupFailed, Event.failed] at hb
  · intro e he hb
    simp only [List.mem_append, List.mem_singleton] at he
    rcases he with he | rfl
    · rw [ht e he] at hb; cases hb
    · simp [Event.bad, Event.setupFailed, Event.failed] at hb

theorem optionLoop_error (opts : List Opt) (s : MainSt) (t : List Event)
    (h : optionLoop opts s = .error t) : ∃ d, t = [.warn d] := by
  induction opts generalizing s with
  | nil => simp [optionLoop] at h
  | cons o os ih =>
    cases o with
    | l => exact ih _ h
    | n => exact ih _ h
    | p optarg =>
      simp only [optionLoop] at h
      split at h
      · injection h with h; exact ⟨_, h.symm⟩
      · exact ih _ h
    | missingArg c => simp only [optionLoop] at h; injection h with h; exact ⟨_, h.symm⟩
    | unrecognized c => simp only [optionLoop] at h; injection h with h; exact ⟨_, h.symm⟩

theorem main_fails_properly (inet_pton : List Char → Option Nat) (opts : List Opt)
    (operands : List (List Char)) (env : Env) :
    FailsProperly (main inet_pton opts operands env) := by
  have hw : ∀ d : Diag, (Event.warn d).bad = false := by
    intro d; simp [Event.bad, Event.setupFailed, Event.failed]
  unfold main
  cases hopt : optionLoop opts ⟨0, true, false, 0⟩ with
  | error t =>
    obtain ⟨d, rfl⟩ := optionLoop_error _ _ _ hopt
    exact dnc_usage_fails_properly [.warn d] (by simp [hw])
  | ok s =>
    simp only
    by_cases hl : s.dnc_flags &&& DNC_F_LISTEN ≠ 0
    · rw [if_pos hl]
      by_cases hh : s.haveport = false
      · rw [if_pos hh]
        exact dnc_usage_fails_properly [.warn .listenRequiresPort] (by simp [hw])
      · rw [if_neg hh]
        by_cases ho : operands ≠ []
        · rw [if_pos ho]
          exact dnc_usage_fails_properly [.warn .extraArguments] (by simp [hw])
        · rw [if_neg ho]
          exact dnc_listen_fails_properly _ env hl
    · rw [if_neg hl]
      have hl' : s.dnc_flags &&& DNC_F_LISTEN = 0 := by simpa using hl
      match operands with
      | [] => exact dnc_usage_fails_properly [.warn .missingArguments] (by simp [hw])
      | [_] => exact dnc_usage_fails_properly [.warn .missingArguments] (by simp [hw])
      | _ :: _ :: _ :: _ =>
        exact dnc_usage_fails_properly [.warn .extraArguments] (by simp [hw])
      | [host, portstr] =>
        simp only
        cases hp : dnc_ipv4_parse inet_pton host with
        | error e =>
          simp only
          by_cases hr : s.resolve = true
          · rw [if_pos hr]
            exact dnc_usage_fails_properly
              [.warn (.invalidAddress host), .warn .hostnamesNotSupported] (by simp [hw])
          · rw [if_neg hr]
            exact dnc_usage_fails_properly [.warn (.invalidAddress host)] (by simp [hw])
        | ok addr =>
          simp only
          cases hpp : dnc_port_parse portstr with
          | error e => exact dnc_usage_fails_properly [.warn (.invalidPort portstr)] (by simp [hw])
          | ok port => exact dnc_connect_fails_properly _ env hl'

/-- Claim C8.  `dnc_port_parse` on decimal strings: (1) a non-empty string of
decimal digits whose value `n` is at most 65535 is accepted (return value 0)
and exactly `n` is stored; (2) a number (optional white space, optional sign, a
non-empty run of digits) followed by a non-digit character is rejected with
-1; (3) a non-empty string of decimal digits whose value exceeds 65535,
however large, is rejected with -1. -/
theorem dnc_port_parse_decimal :
    (∀ s : List Char, s ≠ [] → (∀ c ∈ s, isdigit c = true) → decimalValue s ≤ 65535 →
      dnc_port_parse s = .ok (decimalValue s)) ∧
    (∀ (ws sg ds : List Char) (c : Char) (rest : List Char),
      (∀ w ∈ ws, isspace w = true) → (sg = [] ∨ sg = ['+'] ∨ sg = ['-']) →
      ds ≠ [] → (∀ d ∈ ds, isdigit d = true) → isdigit c = false → c.toNat ≠ 0 →
      dnc_port_parse (ws ++ sg ++ ds ++ c :: rest) = .error (-1)) ∧
    (∀ s : List Char, s ≠ [] → (∀ c ∈ s, isdigit c = true) → 65535 < decimalValue s →
      dnc_port_parse s = .error (-1)) := by
  refine ⟨?_, ?_, ?_⟩
  · intro s hne hds hle
    have h := strtol_number [] [] s [] (by simp) (Or.inl rfl) hne hds (by simp)
    simp only [List.nil_append, List.append_nil] at h
    have hu := toUnsignedLong_clamp_pos (decimalValue s)
    have hd : decide (([] : List Char) = ['-']) = false := by decide
    rw [hd] at h
    have hlt : decimalValue s < 2 ^ 63 := by omega
    rw [if_pos hlt] at hu
    simp only [dnc_port_parse, h, hu, deref, UINT16_MAX]
    have h0 : (Char.ofNat 0).toNat = 0 := by decide
    simp only [List.headD_nil, h0]
    rw [if_neg (by omega)]
    congr 1
    omega
  · intro ws sg ds c rest hws hsg hne hds hc hc0
    have h := strtol_number ws sg ds (c :: rest) hws hsg hne hds (by simpa using hc)
    simp only [dnc_port_parse, h, deref, List.headD_cons]
    rw [if_pos (Or.inl hc0)]
  · intro s hne hds hgt
    have h := strtol_number [] [] s [] (by simp) (Or.inl rfl) hne hds (by simp)
    simp only [List.nil_append, List.append_nil] at h
    have hu := toUnsignedLong_clamp_pos (decimalValue s)
    have hd : decide (([] : List Char) = ['-']) = false := by decide
    rw [hd] at h
    simp only [dnc_port_parse, h, hu, UINT16_MAX]
    rw [if_pos]
    right
    split_ifs <;> omega

/-- Witness for `dnc_port_parse_decimal` : "8080", "0080" and "65535" are
accepted with their values; " +80x", "80 " and "8o" are rejected; so are
"65536" and a 26-digit number. -/
theorem dnc_port_parse_decimal_witness :
    dnc_port_parse "8080".toList = .ok 8080 ∧
    dnc_port_parse "0080".toList = .ok 80 ∧
    dnc_port_parse "65535".toList = .ok 65535 ∧
    dnc_port_parse " +80x".toList = .error (-1) ∧
    dnc_port_parse "80 ".toList = .error (-1) ∧
    dnc_port_parse "8o".toList = .error (-1) ∧
    dnc_port_parse "65536".toList = .error (-1) ∧
    dnc_port_parse "99999999999999999999999999".toList = .error (-1) :=
  ⟨dnc_port_parse_decimal.1 "8080".toList (by decide) (by decide) (by decide),
   dnc_port_parse_decimal.1 "0080".toList (by decide) (by decide) (by decide),
   dnc_port_parse_decimal.1 "65535".toList (by decide) (by decide) (by decide),
   dnc_port_parse_decimal.2.1 [' '] ['+'] ['8', '0'] 'x' [] (by decide) (by decide)
     (by decide) (by decide) (by decide) (by decide),
   dnc_port_parse_decimal.2.1 [] [] ['8', '0'] ' ' [] (by decide) (by decide)
     (by decide) (by decide) (by decide) (by decide),
   dnc_port_parse_decimal.2.1 [] [] ['8'] 'o' [] (by decide) (by decide)
     (by decide) (by decide) (by decide) (by decide),
   dnc_port_parse_decimal.2.2 "65536".toList (by decide) (by decide) (by decide),
   dnc_port_parse_decimal.2.2 "99999999999999999999999999".toList (by decide) (by decide)
     (by decide)⟩

/-- Claim C1.  In every run of `dnc_connection` in which every `write`
transfers all the bytes requested, the bytes written to the socket are, in
order, the chunks read from standard input; and every successful read on
standard input is followed at once (after its log line, before any other
call) by one `write` to the socket of exactly the bytes read, transferred in
full. -/
theorem dnc_connection_forwards_stdin (sock : Int) (env : Env)
    (hw : ∀ e ∈ (dnc_connection sock env).st.trace, e.fullWrite = true) :
    socketBytes sock (dnc_connection sock env).st.trace
        = stdinBytes (dnc_connection sock env).st.trace ∧
    ∀ (pre post : List Event) (fd : Int) (bs : List Byte),
      (dnc_connection sock env).st.trace = pre ++ .read 0 fd (some (.data bs)) :: post →
      ∃ post', post = .log (.writingToSocket bs.length)
        :: .write 1 sock bs (some (bs.length : Int)) :: post' := by
  have hinv := forwarding_inv sock env
  refine ⟨(socketBytes_eq_requested sock _ hw).trans hinv.1, ?_⟩
  intro pre post fd bs ht
  obtain ⟨r, post', hp⟩ := Forwarded_split sock _ pre post fd bs hinv.2 ht
  have hmem : Event.write 1 sock bs r ∈ (dnc_connection sock env).st.trace := by
    rw [ht, hp]; simp
  have hr := hw _ hmem
  simp only [Event.fullWrite, decide_eq_true_eq] at hr
  subst hr
  exact ⟨post', hp⟩

/-- Witness for `dnc_connection_forwards_stdin` : standard input yields "abc"
and then a zero-length read, the socket yields nothing, every write is
complete; the bytes written to the socket are exactly "abc". -/
theorem dnc_connection_forwards_stdin_witness :
    (∀ e ∈ (dnc_connection 4 abcEnv).st.trace, e.fullWrite = true) ∧
    socketBytes 4 (dnc_connection 4 abcEnv).st.trace = [97, 98, 99] ∧
    stdinBytes (dnc_connection 4 abcEnv).st.trace = [97, 98, 99] :=
  ⟨by decide,
   (dnc_connection_forwards_stdin 4 abcEnv (by decide)).1.trans (by decide), by decide⟩

/-- Claim C2.  At every loop head that a run of `dnc_connection` reaches,
`pollfds[0].events` is 0 exactly when a zero-length read on standard input
has been observed, and `pollfds[1].events` is 0 exactly when a zero-length
read on the socket has been observed; the run leaves the loop there for the
terminal wait (the log line "read end-of-stream from both socket and stdin",
"pausing until signal", then `pause()`) if and only if both have been
observed; and otherwise the next call is `poll`. -/
theorem dnc_connection_terminal_iff (sock : Int) (env : Env) (k : Nat) (st : St)
    (h : headAfter sock k env.polls (initSt env) = some st) :
    (st.events0 = 0 ↔ zeroReadSeen 0 st.trace = true) ∧
    (st.events1 = 0 ↔ zeroReadSeen 1 st.trace = true) ∧
    ((dnc_connection sock env).st.trace
        = st.trace ++ [.log .enteringPoll, .log .eosBoth, .log .pausing, .pause]
      ↔ (zeroReadSeen 0 st.trace = true ∧ zeroReadSeen 1 st.trace = true)) ∧
    (¬ (zeroReadSeen 0 st.trace = true ∧ zeroReadSeen 1 st.trace = true) →
      ∃ r rest, (dnc_connection sock env).st.trace
        = st.trace ++ .log .enteringPoll :: .poll r :: rest) := by
  have hinv : InterestInv st :=
    headAfter_inv sock InterestInv (fun s p s' hi _ hb => interestInv_pass sock s p s' hi hb)
      k env.polls (initSt env) st (interestInv_init env) h
  have hrun : dnc_connection sock env
      = dnc_loop sock env.pauseReturns (env.polls.drop k) st :=
    dnc_loop_headAfter sock env.pauseReturns k env.polls (initSt env) st h
  have hpoll : ¬ (zeroReadSeen 0 st.trace = true ∧ zeroReadSeen 1 st.trace = true) →
      ∃ r rest, (dnc_connection sock env).st.trace
        = st.trace ++ .log .enteringPoll :: .poll r :: rest := by
    intro hn
    have hb : breaks (enter st) = false := by
      cases hbr : breaks (enter st) with
      | false => rfl
      | true =>
        have := (breaks_enter st).1 hbr
        exact absurd ⟨hinv.1.1 this.1, hinv.2.1 this.2⟩ hn
    rw [hrun]
    exact dnc_loop_polls sock env.pauseReturns _ st hb
  refine ⟨hinv.1, hinv.2, ⟨?_, ?_⟩, hpoll⟩
  · intro ht
    by_contra hn
    obtain ⟨r, rest, hr⟩ := hpoll hn
    rw [hr] at ht
    simp at ht
  · rintro ⟨h0, h1⟩
    have hb : breaks (enter st) = true := (breaks_enter st).2 ⟨hinv.1.2 h0, hinv.2.2 h1⟩
    rw [hrun, dnc_loop_breaks sock _ _ st hb, terminalWait_trace]

/-- Witness for `dnc_connection_terminal_iff` : on `abcEosEnv` the third loop
head is `abcEosHead`, where `pollfds[0].events` is 0 and `pollfds[1].events`
is still `POLLIN`; the loop polls again there. -/
theorem dnc_connection_terminal_iff_witness :
    headAfter 4 2 abcEosEnv.polls (initSt abcEosEnv) = some abcEosHead ∧
    (abcEosHead.events0 = 0 ↔ zeroReadSeen 0 abcEosHead.trace = true) ∧
    (abcEosHead.events1 = 0 ↔ zeroReadSeen 1 abcEosHead.trace = true) ∧
    ((dnc_connection 4 abcEosEnv).st.trace
        = abcEosHead.trace ++ [.log .enteringPoll, .log .eosBoth, .log .pausing, .pause]
      ↔ (zeroReadSeen 0 abcEosHead.trace = true ∧ zeroReadSeen 1 abcEosHead.trace = true)) ∧
    (¬ (zeroReadSeen 0 abcEosHead.trace = true ∧ zeroReadSeen 1 abcEosHead.trace = true) →
      ∃ r rest, (dnc_connection 4 abcEosEnv).st.trace
        = abcEosHead.trace ++ .log .enteringPoll :: .poll r :: rest) :=
  ⟨by decide, dnc_connection_terminal_iff 4 abcEosEnv 2 abcEosHead (by decide)⟩

/-- Claim C3 fails on the code.  On `hangupEnv` the first read on standard
input returns 0 and `pollfds[0].events` is cleared; the second `poll` reports
`POLLHUP` for standard input all the same, and the loop, which tests
`revents` only, reads standard input again. -/
theorem stdin_read_again_after_eof :
    (dnc_connection 4 hangupEnv).st.trace
      = [.log .enteringPoll, .poll (some ⟨1, POLLIN, 0⟩), .log (.pollReturned POLLIN 0),
          .log .readingStdin, .read 0 STDIN_FILENO (some (.data [])),
          .log (.writingToSocket 0), .write 1 4 [] (some 0),
          .log .enteringPoll, .poll (some ⟨1, POLLHUP, 0⟩), .log (.pollReturned POLLHUP 0),
          .log .readingStdin, .read 0 STDIN_FILENO (some (.data [])),
          .log (.writingToSocket 0), .write 1 4 [] (some 0),
          .log .enteringPoll, .poll none] ∧
    (dnc_connection 4 hangupEnv).st.events0 = 0 := by
  decide

/-- Claim C4, as stated, fails: on `bothEosEnv` the first read on standard
input and the first read on the socket both return 0 and the run reaches
`pause()`, but a `write` call (of zero bytes) has been issued. -/
theorem eof_on_both_still_writes :
    (dnc_connection 4 bothEosEnv).out = .paused ∧
    Event.write 1 4 [] (some 0) ∈ (dnc_connection 4 bothEosEnv).st.trace := by
  decide

/-- Claim C4, amended.  (1) A zero-length read on standard input sets
`pollfds[0].events` to 0, leaves `pollfds[1].events` as it was, and is
followed by one `write` call to the socket with a zero-length byte range
(then, at most, by a diagnostic).  (2) When the first `poll` reports both
descriptors, the first read on each returns 0 and the zero-length write
returns 0, the run logs "read end-of-stream from both socket and stdin" and
reaches `pause()`; its only `write` call is that zero-length one, and no byte
is written to the socket. -/
theorem dnc_connection_eof_zero_write (sock : Int) :
    (∀ (st : St) (rs : List ReadRes),
      ready st.revents0 = true → st.stdinReads = .data [] :: rs →
      (stdinPhase sock st).st.events0 = 0 ∧
      (stdinPhase sock st).st.events1 = st.events1 ∧
      ∃ tail, (stdinPhase sock st).st.trace
          = st.trace ++ [.log .readingStdin, .read 0 STDIN_FILENO (some (.data [])),
              .log (.writingToSocket 0), .write 1 sock [] st.writes.head?] ++ tail
        ∧ (tail = [] ∨ ∃ d, tail = [.warn d])) ∧
    (∀ (env : Env) (p : PollRes) (ps : List PollRes) (rs rs' : List ReadRes) (ws : List Int),
      env.polls = p :: ps → ¬ p.ret < 0 → ready p.revents0 = true → ready p.revents1 = true →
      env.stdinReads = .data [] :: rs → env.sockReads = .data [] :: rs' →
      env.writes = 0 :: ws →
      (dnc_connection sock env).st.trace
        = [.log .enteringPoll, .poll (some p), .log (.pollReturned p.revents0 p.revents1),
            .log .readingStdin, .read 0 STDIN_FILENO (some (.data [])),
            .log (.writingToSocket 0), .write 1 sock [] (some 0),
            .log .readingSocket, .read 1 sock (some (.data [])), .log .eosSocket,
            .log (.readFromSocket 0),
            .log .enteringPoll, .log .eosBoth, .log .pausing, .pause] ∧
      socketBytes sock (dnc_connection sock env).st.trace = [] ∧
      (dnc_connection sock env).out
        = (if env.pauseReturns then .returned 0 else .paused)) := by
  refine ⟨?_, ?_⟩
  · intro st rs hr hrd
    have H := stdinPhase_spec sock st
    generalize stdinPhase sock st = r at H
    cases H with
    | idle h => rw [hr] at h; cases h
    | readBlocked h hr' => rw [hrd] at hr'; cases hr'
    | readFailed h rs' hr' => rw [hrd] at hr'; cases hr'
    | writeBlocked h d bs rs' hbs hr' hw =>
      rw [hrd] at hr'
      injection hr' with e1 e2
      injection e1 with e1
      subst e1 e2
      simp only [List.take_nil] at hbs
      subst hbs
      simp [Step.st, St.afterStdinRead, hw]
    | writeFailed h d bs rs' w ws hbs hr' hw hneg =>
      rw [hrd] at hr'
      injection hr' with e1 e2
      injection e1 with e1
      subst e1 e2
      simp only [List.take_nil] at hbs
      subst hbs
      simp [Step.st, St.afterStdinRead, hw]
    | writeShort h d bs rs' w ws hbs hr' hw hneg hne =>
      rw [hrd] at hr'
      injection hr' with e1 e2
      injection e1 with e1
      subst e1 e2
      simp only [List.take_nil] at hbs
      subst hbs
      simp [Step.st, St.afterStdinRead, hw]
    | forwarded h d bs rs' ws hbs hr' hw =>
      rw [hrd] at hr'
      injection hr' with e1 e2
      injection e1 with e1
      subst e1 e2
      simp only [List.take_nil] at hbs
      subst hbs
      simp [Step.st, St.afterStdinRead, hw]
  · intro env p ps rs rs' ws hpolls hp hr0 hr1 hin hsock hwr
    have hb0 : breaks (enter (initSt env)) = false := by
      simp [breaks, enter, St.emit, initSt, POLLIN]
    have hs : stdinPhase sock ((enter (initSt env)).polled p)
        = .cont { events0 := 0, events1 := POLLIN, revents0 := p.revents0,
                  revents1 := p.revents1, buf := env.stack, stdinReads := rs,
                  sockReads := env.sockReads, writes := ws,
                  trace := [.log .enteringPoll, .poll (some p),
                    .log (.pollReturned p.revents0 p.revents1), .log .readingStdin,
                    .read 0 STDIN_FILENO (some (.data [])), .log (.writingToSocket 0),
                    .write 1 sock [] (some 0)] } := by
      simp [stdinPhase, enter, St.emit, St.polled, initSt, hr0, hin, hwr]
    have hk : sockPhase sock
        ({ events0 := 0, events1 := POLLIN, revents0 := p.revents0,
                  revents1 := p.revents1, buf := env.stack, stdinReads := rs,
                  sockReads := env.sockReads, writes := ws,
                  trace := [.log .enteringPoll, .poll (some p),
                    .log (.pollReturned p.revents0 p.revents1), .log .readingStdin,
                    .read 0 STDIN_FILENO (some (.data [])), .log (.writingToSocket 0),
                    .write 1 sock [] (some 0)] } : St)
        = .cont { events0 := 0, events1 := 0, revents0 := p.revents0,
                  revents1 := p.revents1, buf := env.stack, stdinReads := rs,
                  sockReads := rs', writes := ws,
                  trace := [.log .enteringPoll, .poll (some p),
                    .log (.pollReturned p.revents0 p.revents1), .log .readingStdin,
                    .read 0 STDIN_FILENO (some (.data [])), .log (.writingToSocket 0),
                    .write 1 sock [] (some 0), .log .readingSocket,
                    .read 1 sock (some (.data [])), .log .eosSocket,
                    .log (.readFromSocket 0)] } := by
      simp [sockPhase, St.emit, hr1, hsock]
    have hrun : dnc_connection sock env = terminalWait env.pauseReturns (enter
        ({ events0 := 0, events1 := 0, revents0 := p.revents0,
                  revents1 := p.revents1, buf := env.stack, stdinReads := rs,
                  sockReads := rs', writes := ws,
                  trace := [.log .enteringPoll, .poll (some p),
                    .log (.pollReturned p.revents0 p.revents1), .log .readingStdin,
                    .read 0 STDIN_FILENO (some (.data [])), .log (.writingToSocket 0),
                    .write 1 sock [] (some 0), .log .readingSocket,
                    .read 1 sock (some (.data [])), .log .eosSocket,
                    .log (.readFromSocket 0)] } : St)) := by
      unfold dnc_connection
      rw [hpolls, dnc_loop, if_neg (by simp [hb0]), body_eq, if_neg hp, hs]
      simp only [hk]
      exact dnc_loop_breaks sock _ _ _ (by simp [breaks, enter, St.emit])
    rw [hrun]
    refine ⟨?_, ?_, ?_⟩
    · rw [terminalWait_trace]; rfl
    · rw [terminalWait_trace]
      simp [socketBytes, Event.transferred]
    · unfold terminalWait
      split <;> simp_all

/-- Witness for `dnc_connection_eof_zero_write` : on `bothEosEnv` with socket 4
the run is the fifteen actions below, ends in `pause()`, and writes no byte. -/
theorem dnc_connection_eof_zero_write_witness :
    (dnc_connection 4 bothEosEnv).st.trace
        = [.log .enteringPoll, .poll (some ⟨2, POLLIN, POLLIN⟩),
            .log (.pollReturned POLLIN POLLIN),
            .log .readingStdin, .read 0 STDIN_FILENO (some (.data [])),
            .log (.writingToSocket 0), .write 1 4 [] (some 0),
            .log .readingSocket, .read 1 4 (some (.data [])), .log .eosSocket,
            .log (.readFromSocket 0),
            .log .enteringPoll, .log .eosBoth, .log .pausing, .pause] ∧
      socketBytes 4 (dnc_connection 4 bothEosEnv).st.trace = [] ∧
      (dnc_connection 4 bothEosEnv).out
        = (if bothEosEnv.pauseReturns then .returned 0 else .paused) :=
  (dnc_connection_eof_zero_write 4).2 bothEosEnv ⟨2, POLLIN, POLLIN⟩ [] [] [] [] rfl
    (by decide) (by decide) (by decide) rfl rfl rfl

/-- Claim C5.  In every run of `dnc_connection`, a `write` to the socket that
returns a negative value or a count different from the number of bytes
requested (the bytes of the stdin read before it) makes the function return
-1 at once: the only action after that `write` is the diagnostic, so the
write is not retried and no further `poll`, `read` or `write` is issued,
whatever `poll` reported for the socket in that pass. -/
theorem dnc_connection_write_failure (sock : Int) (env : Env) (pre post : List Event)
    (i : Nat) (fd : Int) (bs : List Byte) (w : Int)
    (ht : (dnc_connection sock env).st.trace = pre ++ .write i fd bs (some w) :: post)
    (hw : w < 0 ∨ w ≠ (bs.length : Int)) :
    (dnc_connection sock env).out = .returned (-1) ∧
    post = [.warn (if w < 0 then .write else .shortWrite bs.length w)] := by
  have hne : w ≠ (bs.length : Int) := by
    rcases hw with h | h
    · intro he; rw [he] at h; omega
    · exact h
  have hf : (Event.write i fd bs (some w)).failed = true := by
    simp [Event.failed, hne]
  obtain ⟨h1, h2⟩ := failure_inv sock env
  refine ⟨h2 (noFailure_of_mem _ _ (by rw [ht]; simp) hf), ?_⟩
  exact FailureEnds_split _ pre post _ h1 ht hf

/-- Witness for `dnc_connection_write_failure` : on `shortWriteEnv` the write
of "abc" returns 2; the run returns -1 and ends with the diagnostic, though
`poll` had reported the socket readable too. -/
theorem dnc_connection_write_failure_witness :
    (dnc_connection 4 shortWriteEnv).out = .returned (-1) ∧
    [Event.warn (.shortWrite 3 2)]
      = [.warn (if (2 : Int) < 0 then .write else .shortWrite [97, 98, 99].length 2)] :=
  dnc_connection_write_failure 4 shortWriteEnv
    [.log .enteringPoll, .poll (some ⟨2, POLLIN, POLLIN⟩), .log (.pollReturned POLLIN POLLIN),
      .log .readingStdin, .read 0 STDIN_FILENO (some (.data [97, 98, 99])),
      .log (.writingToSocket 3)]
    [.warn (.shortWrite 3 2)] 1 4 [97, 98, 99] 2 (by decide) (by decide)

/-- Claim C6.  A negative result from a `read` makes `dnc_connection` return
-1 at once.  (1) In every run, the only action after a failed `read` is the
diagnostic.  (2) From any loop head, when the read on standard input fails,
the function returns -1 in a state whose `events` fields are those of the loop
head, and the trace ends with that read and the diagnostic.  (3) From any
loop head, when the `stdin` part went through and the read on the socket
fails, the function returns -1 in a state whose `events` fields are those
before that read. -/
theorem dnc_connection_read_failure (sock : Int) :
    (∀ (env : Env) (pre post : List Event) (i : Nat) (fd : Int),
      (dnc_connection sock env).st.trace = pre ++ .read i fd (some .fail) :: post →
      (dnc_connection sock env).out = .returned (-1) ∧ post = [.warn .read]) ∧
    (∀ (pr : Bool) (p : PollRes) (ps : List PollRes) (st : St) (rs : List ReadRes),
      breaks (enter st) = false → ¬ p.ret < 0 → ready p.revents0 = true →
      st.stdinReads = .fail :: rs →
      ∃ st', dnc_loop sock pr (p :: ps) st = ⟨.returned (-1), st'⟩ ∧
        st'.events0 = st.events0 ∧ st'.events1 = st.events1 ∧
        st'.trace = st.trace ++ [.log .enteringPoll, .poll (some p),
          .log (.pollReturned p.revents0 p.revents1), .log .readingStdin,
          .read 0 STDIN_FILENO (some .fail), .warn .read]) ∧
    (∀ (pr : Bool) (p : PollRes) (ps : List PollRes) (st s : St) (rs : List ReadRes),
      breaks (enter st) = false → ¬ p.ret < 0 →
      stdinPhase sock ((enter st).polled p) = .cont s →
      ready p.revents1 = true → s.sockReads = .fail :: rs →
      ∃ st', dnc_loop sock pr (p :: ps) st = ⟨.returned (-1), st'⟩ ∧
        st'.events0 = s.events0 ∧ st'.events1 = s.events1 ∧
        st'.trace = s.trace ++ [.log .readingSocket, .read 1 sock (some .fail),
          .warn .read]) := by
  refine ⟨?_, ?_, ?_⟩
  · intro env pre post i fd ht
    have hf : (Event.read i fd (some .fail)).failed = true := rfl
    obtain ⟨h1, h2⟩ := failure_inv sock env
    exact ⟨h2 (noFailure_of_mem _ _ (by rw [ht]; simp) hf),
      FailureEnds_split _ pre post _ h1 ht hf⟩
  · intro pr p ps st rs hb hp hr0 hrd
    have H := stdinPhase_spec sock ((enter st).polled p)
    have hrd' : ((enter st).polled p).stdinReads = .fail :: rs := by
      simpa [enter, St.emit, St.polled] using hrd
    have hr0' : ready ((enter st).polled p).revents0 = true := by
      simpa [St.polled] using hr0
    generalize hs : stdinPhase sock ((enter st).polled p) = r at H
    cases H with
    | idle h => rw [hr0'] at h; cases h
    | readBlocked h hr => rw [hrd'] at hr; cases hr
    | readFailed h rs' hr =>
      refine ⟨(stdinPhase sock ((enter st).polled p)).st, ?_, ?_, ?_, ?_⟩
      · rw [dnc_loop, if_neg (by simp [hb]), body_eq, if_neg hp, hs]
        rfl
      · rw [hs]; simp [Step.st, enter, St.emit, St.polled]
      · rw [hs]; simp [Step.st, enter, St.emit, St.polled]
      · rw [hs]; simp [Step.st, enter, St.emit, St.polled]
    | writeBlocked h d bs rs' hbs hr hw => rw [hrd'] at hr; cases hr
    | writeFailed h d bs rs' w ws hbs hr hw hneg => rw [hrd'] at hr; cases hr
    | writeShort h d bs rs' w ws hbs hr hw hneg hne => rw [hrd'] at hr; cases hr
    | forwarded h d bs rs' ws hbs hr hw => rw [hrd'] at hr; cases hr
  · intro pr p ps st s rs hb hp hs hr1 hrd
    have hrev : s.revents1 = p.revents1 := by
      have H := stdinPhase_spec sock ((enter st).polled p)
      rw [hs] at H
      cases H <;> simp [St.polled, St.afterStdinRead]
    have K := sockPhase_spec sock s
    have hr1' : ready s.revents1 = true := by rw [hrev]; exact hr1
    generalize hk : sockPhase sock s = r at K
    cases K with
    | idle h => rw [hr1'] at h; cases h
    | readBlocked h hr => rw [hrd] at hr; cases hr
    | readFailed h rs' hr =>
      refine ⟨(sockPhase sock s).st, ?_, ?_, ?_, ?_⟩
      · rw [dnc_loop, if_neg (by simp [hb]), body_eq, if_neg hp, hs]
        simp only [hk]
        rfl
      · rw [hk]; rfl
      · rw [hk]; rfl
      · rw [hk]; rfl
    | received h d bs rs' hbs hr => rw [hrd] at hr; cases hr

/-- Witness for `dnc_connection_read_failure` : on `sockReadFailEnv` the read
on the socket fails in the second pass and the run returns -1 with the
diagnostic last; on `stdinReadFailEnv` and `sockReadFailFirstEnv` the first
pass returns -1 with both `events` fields unchanged. -/
theorem dnc_connection_read_failure_witness :
    ((dnc_connection 4 sockReadFailEnv).out = .returned (-1) ∧
      [Event.warn .read] = [.warn .read]) ∧
    (∃ st', dnc_loop 4 false [⟨2, POLLIN, POLLIN⟩, ⟨1, 0, POLLIN⟩] (initSt stdinReadFailEnv)
        = ⟨.returned (-1), st'⟩ ∧
      st'.events0 = (initSt stdinReadFailEnv).events0 ∧
      st'.events1 = (initSt stdinReadFailEnv).events1 ∧
      st'.trace = (initSt stdinReadFailEnv).trace ++ [.log .enteringPoll,
        .poll (some ⟨2, POLLIN, POLLIN⟩), .log (.pollReturned POLLIN POLLIN),
        .log .readingStdin, .read 0 STDIN_FILENO (some .fail), .warn .read]) ∧
    (∃ st', dnc_loop 4 false [⟨1, 0, POLLIN⟩, ⟨1, POLLIN, 0⟩] (initSt sockReadFailFirstEnv)
        = ⟨.returned (-1), st'⟩ ∧
      st'.events0 = ((enter (initSt sockReadFailFirstEnv)).polled ⟨1, 0, POLLIN⟩).events0 ∧
      st'.events1 = ((enter (initSt sockReadFailFirstEnv)).polled ⟨1, 0, POLLIN⟩).events1 ∧
      st'.trace = ((enter (initSt sockReadFailFirstEnv)).polled ⟨1, 0, POLLIN⟩).trace
        ++ [.log .readingSocket, .read 1 4 (some .fail), .warn .read]) :=
  ⟨(dnc_connection_read_failure 4).1 sockReadFailEnv
      [.log .enteringPoll, .poll (some ⟨1, POLLIN, 0⟩), .log (.pollReturned POLLIN 0),
        .log .readingStdin, .read 0 STDIN_FILENO (some (.data [])),
        .log (.writingToSocket 0), .write 1 4 [] (some 0),
        .log .enteringPoll, .poll (some ⟨1, 0, POLLIN⟩), .log (.pollReturned 0 POLLIN),
        .log .readingSocket]
      [.warn .read] 1 4 (by decide),
   (dnc_connection_read_failure 4).2.1 false ⟨2, POLLIN, POLLIN⟩ [⟨1, 0, POLLIN⟩]
      (initSt stdinReadFailEnv) [] (by decide) (by decide) (by decide) (by decide),
   (dnc_connection_read_failure 4).2.2 false ⟨1, 0, POLLIN⟩ [⟨1, POLLIN, 0⟩]
      (initSt sockReadFailFirstEnv) ((enter (initSt sockReadFailFirstEnv)).polled ⟨1, 0, POLLIN⟩)
      [] (by decide) (by decide) (by decide) (by decide) (by decide)⟩

/-- Claim C7.  In every run of `dnc_connection`, bytes read from the socket are
never forwarded: (1) every `write` goes through `pollfds[1]` to the socket
descriptor, and the two actions just before it are a successful read on
standard input of exactly the bytes written and the log line announcing the
write; (2) when the socket is not standard output, no `write` targets
standard output; (3) a successful read of `n` bytes on the socket is followed
by the log lines for the count `n` alone ("read end-of-stream from socket"
when `n` is 0, then "read n bytes from socket") and then by the next loop
head. -/
theorem dnc_connection_socket_not_forwarded (sock : Int) (env : Env) :
    (∀ (pre post : List Event) (i : Nat) (fd : Int) (bs : List Byte) (r : Option Int),
      (dnc_connection sock env).st.trace = pre ++ .write i fd bs r :: post →
      i = 1 ∧ fd = sock ∧
      ∃ pre', pre = pre' ++ [.read 0 STDIN_FILENO (some (.data bs)),
        .log (.writingToSocket bs.length)]) ∧
    (sock ≠ STDOUT_FILENO →
      ∀ (i : Nat) (fd : Int) (bs : List Byte) (r : Option Int),
        .write i fd bs r ∈ (dnc_connection sock env).st.trace → fd ≠ STDOUT_FILENO) ∧
    (∀ (pre post : List Event) (fd : Int) (bs : List Byte),
      (dnc_connection sock env).st.trace = pre ++ .read 1 fd (some (.data bs)) :: post →
      ∃ t', post = sockLogs bs.length ++ .log .enteringPoll :: t') := by
  obtain ⟨h1, h2⟩ := writes_inv sock env
  have key : ∀ (pre post : List Event) (i : Nat) (fd : Int) (bs : List Byte) (r : Option Int),
      (dnc_connection sock env).st.trace = pre ++ .write i fd bs r :: post →
      i = 1 ∧ fd = sock ∧
      ∃ pre', pre = pre' ++ [.read 0 STDIN_FILENO (some (.data bs)),
        .log (.writingToSocket bs.length)] := by
    intro pre post i fd bs r ht
    have hrev : (dnc_connection sock env).st.trace.reverse
        = post.reverse ++ .write i fd bs r :: pre.reverse := by
      rw [ht]; simp
    obtain ⟨hi, hfd, o, ho⟩ := WritesJustified_split sock _ _ _ i fd bs r h1 hrev
    refine ⟨hi, hfd, o.reverse, ?_⟩
    have := congrArg List.reverse ho
    simpa using this
  refine ⟨key, ?_, ?_⟩
  · intro hne i fd bs r hmem
    obtain ⟨pre, post, ht⟩ := List.append_of_mem hmem
    rw [(key pre post i fd bs r ht).2.1]
    exact hne
  · intro pre post fd bs ht
    obtain ⟨t', hp, hc⟩ := SockReadsLogged_split true _ pre post fd bs h2 ht
    rcases hc with ⟨u, hu⟩ | ⟨hf, _⟩
    · exact ⟨u, by rw [hp, hu]⟩
    · cases hf

/-- Witness for `dnc_connection_socket_not_forwarded` : on `bothDataEnv` with
socket 4, the only write carries "abc", the bytes read from standard input,
to descriptor 4, and the read of "x" on the socket is followed by the log line
"read 1 bytes from socket" and the next loop head. -/
theorem dnc_connection_socket_not_forwarded_witness :
    ((1 : Nat) = 1 ∧ (4 : Int) = 4 ∧
      ∃ pre', [Event.log .enteringPoll, .poll (some ⟨2, POLLIN, POLLIN⟩),
          .log (.pollReturned POLLIN POLLIN), .log .readingStdin,
          .read 0 STDIN_FILENO (some (.data [97, 98, 99])), .log (.writingToSocket 3)]
        = pre' ++ [.read 0 STDIN_FILENO (some (.data [97, 98, 99])),
          .log (.writingToSocket [97, 98, 99].length)]) ∧
    (∀ (i : Nat) (fd : Int) (bs : List Byte) (r : Option Int),
      .write i fd bs r ∈ (dnc_connection 4 bothDataEnv).st.trace → fd ≠ STDOUT_FILENO) ∧
    (∃ t', [Event.log (.readFromSocket 1), .log .enteringPoll, .poll none]
      = sockLogs [120].length ++ .log .enteringPoll :: t') :=
  ⟨(dnc_connection_socket_not_forwarded 4 bothDataEnv).1
      [.log .enteringPoll, .poll (some ⟨2, POLLIN, POLLIN⟩),
        .log (.pollReturned POLLIN POLLIN), .log .readingStdin,
        .read 0 STDIN_FILENO (some (.data [97, 98, 99])), .log (.writingToSocket 3)]
      [.log .readingSocket, .read 1 4 (some (.data [120])), .log (.readFromSocket 1),
        .log .enteringPoll, .poll none]
      1 4 [97, 98, 99] (some 3) (by decide),
   (dnc_connection_socket_not_forwarded 4 bothDataEnv).2.1 (by decide),
   (dnc_connection_socket_not_forwarded 4 bothDataEnv).2.2
      [.log .enteringPoll, .poll (some ⟨2, POLLIN, POLLIN⟩),
        .log (.pollReturned POLLIN POLLIN), .log .readingStdin,
        .read 0 STDIN_FILENO (some (.data [97, 98, 99])), .log (.writingToSocket 3),
        .write 1 4 [97, 98, 99] (some 3), .log .readingSocket]
      [.log (.readFromSocket 1), .log .enteringPoll, .poll none] 4 [120] (by decide)⟩

/-- Claim C9 fails on the code.  `dnc_port_parse` accepts the empty string
(`strtol` converts nothing, returns 0 and leaves `endptr` at the terminating
NUL) and stores port 0; it also accepts leading white space and a sign. -/
theorem dnc_port_parse_accepts_empty :
    dnc_port_parse [] = .ok 0 ∧
    dnc_port_parse " 80".toList = .ok 80 ∧
    dnc_port_parse "+80".toList = .ok 80 ∧
    dnc_port_parse "-0".toList = .ok 0 := by
  decide

/-- Claim C10, as stated, fails: when `socket` fails in listen mode, the
diagnostic is printed and `main` returns -1, so the exit status is 255, not
1. -/
theorem socket_failure_exits_255 :
    (main (fun _ => none) [.l, .p "80".toList] [] socketFailEnv).trace
      = [.socket (-1), .warn .socket, .close (-1)] ∧
    (main (fun _ => none) [.l, .p "80".toList] [] socketFailEnv).out = .returned (-1) ∧
    exitStatus (main (fun _ => none) [.l, .p "80".toList] [] socketFailEnv).out = some 255 ∧
    exitStatus (main (fun _ => none) [.l, .p "80".toList] [] socketFailEnv).out ≠ some 1 := by
  decide

/-- When `accept` fails, `dnc_listen` prints no diagnostic: the trace holds no
`warn` at all, unlike for `socket`, `bind` and `listen`. -/
theorem accept_failure_is_silent :
    (main (fun _ => none) [.l, .p "80".toList] [] acceptFailEnv).trace
      = [.socket 3, .bind 3 0, .listen 3 0, .log .listening, .accept 3 (-1), .close 3] ∧
    (main (fun _ => none) [.l, .p "80".toList] [] acceptFailEnv).out = .returned (-1) := by
  decide

/-- Claim C10, amended.  For every invocation: the exit status is 2 exactly
when the usage message was printed; a failed `socket`, `bind`, `listen`,
`accept` or `connect`, or a failed `poll`, `read` or `write` (negative or
short) of the relay, makes `main` return -1, which is exit status 255; and for
every such failure but that of `accept` the matching diagnostic is on the
error stream. -/
theorem main_failure_exit (inet_pton : List Char → Option Nat) (opts : List Opt)
    (operands : List (List Char)) (env : Env) :
    (exitStatus (main inet_pton opts operands env).out = some 2
      ↔ Event.usage ∈ (main inet_pton opts operands env).trace) ∧
    (∀ e ∈ (main inet_pton opts operands env).trace, e.bad = true →
      (main inet_pton opts operands env).out = .returned (-1) ∧
      exitStatus (main inet_pton opts operands env).out = some 255) ∧
    (∀ e ∈ (main inet_pton opts operands env).trace, e.bad = true → e.isAccept = false →
      Event.warn e.diag ∈ (main inet_pton opts operands env).trace) := by
  obtain ⟨h1, h2, h3⟩ := main_fails_properly inet_pton opts operands env
  refine ⟨h1, ?_, h3⟩
  intro e he hb
  have := h2 e he hb
  exact ⟨this, by rw [this]; rfl⟩

/-- Witness for `main_failure_exit` : in connect mode on `shortWriteEnv` the
short write makes `main` return -1, exit status 255, with the diagnostic
"short write" printed. -/
theorem main_failure_exit_witness :
    ((main (fun _ => some 0) [] ["10.0.0.1".toList, "80".toList] shortWriteEnv).out
        = .returned (-1) ∧
      exitStatus (main (fun _ => some 0) [] ["10.0.0.1".toList, "80".toList]
        shortWriteEnv).out = some 255) ∧
    Event.warn (Event.write 1 3 [97, 98, 99] (some 2)).diag
      ∈ (main (fun _ => some 0) [] ["10.0.0.1".toList, "80".toList] shortWriteEnv).trace :=
  ⟨(main_failure_exit (fun _ => some 0) [] ["10.0.0.1".toList, "80".toList]
      shortWriteEnv).2.1 (.write 1 3 [97, 98, 99] (some 2)) (by decide) (by decide),
   (main_failure_exit (fun _ => some 0) [] ["10.0.0.1".toList, "80".toList]
      shortWriteEnv).2.2 (.write 1 3 [97, 98, 99] (some 2)) (by decide) (by decide)
      (by decide)⟩


end Dnc
